import Mathlib

/-!
# Verification of the four CPU-scheduling algorithms in `main.go`

This file gives a shallow embedding of the four schedulers of the
Project-1-Scheduling repository (FCFS, SJF, SJF-Priority, Round-Robin)
and proves/refutes the frozen claims about them.

Modelling conventions:
* Go `int`/`int64` values are modelled as `Int`.  No arithmetic in any claim
  depends on 64-bit wraparound (all quantities involved stay tiny), so no
  `% 2^64` reduction is inserted.
* A Go slice is a `List`; an indexed read `xs[i]` with an index that is
  provably in range is modelled with `List.getD`, and the one read whose
  index can be out of range at run time (`processes[lastGanttIndex]` in the
  Gantt-closing branch of SJF / SJF-Priority) is modelled with `goIndex`,
  which returns `none` exactly when Go would panic with an index
  out-of-range error.  A step that panics is `none`.
* The Go rows `[]string` built with `fmt.Sprint` of integers are modelled as
  records of the integers being rendered (`ScheduleRow`).
* The floating-point aggregates (`totalWait`, `aveTurnaround`, throughput)
  are output-only and outside every claim; they are not modelled.
* The SJF and SJF-Priority functions differ *only* in the per-tick selection
  scan (lines 158-163 versus 250-263 of `main.go`); the surrounding
  tick/Gantt/completion logic (lines 153, 165-212 versus 244, 264-309) is
  textually identical in the source, so it is embedded once (`tickStep`,
  `tickLoop`) and parametrised by the selection function.
* The tick loops of SJF / SJF-Priority grow their own bound
  (`totalBurstTime++` on an idle tick), so they are not structurally
  terminating; they are embedded with an explicit fuel parameter.  All
  universal claims are proved for every amount of fuel.
-/

/-- `Process` record (main.go lines 62-67). -/
structure Process where
  processID : Int
  arrivalTime : Int
  burstDuration : Int
  priority : Int
deriving DecidableEq, Inhabited

/-- `TimeSlice` record (main.go lines 68-72). -/
structure TimeSlice where
  pid : Int
  start : Int
  stop : Int
deriving DecidableEq, Inhabited

/-- One row of the schedule table: the integers whose decimal renderings the
Go code stores as `[]string` (columns ID, Priority, Burst, Arrival, Wait,
Turnaround, Exit). -/
structure ScheduleRow where
  processID : Int
  priority : Int
  burst : Int
  arrivalTime : Int
  waitingTime : Int
  turnaround : Int
  completion : Int
deriving DecidableEq, Inhabited

/-- Go slice read `xs[i]` with an `int` index: `none` models the runtime
panic on an out-of-range index. -/
def goIndex (xs : List α) (i : Int) : Option α :=
  if h : 0 ≤ i ∧ i.toNat < xs.length then some (xs.get ⟨i.toNat, h.2⟩) else none

/-- Total of the burst durations of a table (the initial `totalBurstTime`
of SJF / SJF-Priority, computed in main.go lines 148-151 / 239-242). -/
def sumBurst (ps : List Process) : Int :=
  (ps.map (fun p => p.burstDuration)).sum

/-! ## FCFS (main.go lines 81-131) -/

/-- State of the FCFS loop.  The `processes` field is the input slice, which
FCFS only reads (no assignment to `processes[i]` occurs in its body). -/
structure FCFSState where
  processes : List Process
  serviceTime : Int
  waitingTime : Int
  schedule : List ScheduleRow
  gantt : List TimeSlice
deriving DecidableEq, Inhabited

/-- Body of the FCFS `for i := range processes` loop (main.go lines 91-121).
`schedule[i] = ...` in input order is the same as appending in order. -/
def fcfsStep (s : FCFSState) (p : Process) : FCFSState :=
  let waitingTime := if p.arrivalTime > 0 then s.serviceTime - p.arrivalTime else s.waitingTime
  let start := waitingTime + p.arrivalTime
  let turnaround := p.burstDuration + waitingTime
  let completion := p.burstDuration + p.arrivalTime + waitingTime
  let serviceTime := s.serviceTime + p.burstDuration
  { processes := s.processes
    serviceTime := serviceTime
    waitingTime := waitingTime
    schedule := s.schedule ++
      [⟨p.processID, p.priority, p.burstDuration, p.arrivalTime, waitingTime, turnaround, completion⟩]
    gantt := s.gantt ++ [⟨p.processID, start, serviceTime⟩] }

/-- `FCFSSchedule` (main.go lines 81-131), restricted to the simulation
(the rendering calls at lines 128-130 are output-only). -/
def FCFSSchedule (ps : List Process) : FCFSState :=
  ps.foldl fcfsStep ⟨ps, 0, 0, [], []⟩

/-! ## The SJF / SJF-Priority selection scans -/

/-- Eligibility at a tick: `RemainingBurst[i] > 0 && ArrivalTime <= tick`
(the first two conjuncts of main.go line 159 / line 251). -/
def Elig (ps : List Process) (rb : List Int) (tick : Int) (i : Nat) : Prop :=
  0 < rb.getD i 0 ∧ (ps.getD i default).arrivalTime ≤ tick

instance (ps : List Process) (rb : List Int) (tick : Int) (i : Nat) :
    Decidable (Elig ps rb tick i) := by
  unfold Elig; infer_instance

/-- One iteration of the SJF selection scan (main.go lines 158-163).
The accumulator is `(ShortestJobIndex, ShortestJobBurst)`, seeded with
`(-1, 100000)`. -/
def sjfStepFn (ps : List Process) (rb : List Int) (tick : Int)
    (best : Int × Int) (i : Nat) : Int × Int :=
  if 0 < rb.getD i 0 ∧ (ps.getD i default).arrivalTime ≤ tick ∧ rb.getD i 0 ≤ best.2
  then ((i : Int), rb.getD i 0) else best

/-- The SJF scan after visiting indices `0, …, n-1`. -/
def sjfScanAcc (ps : List Process) (rb : List Int) (tick : Int) (n : Nat) : Int × Int :=
  (List.range n).foldl (sjfStepFn ps rb tick) (-1, 100000)

/-- `ShortestJobIndex` computed by the SJF scan over the whole table. -/
def sjfSelect (ps : List Process) (rb : List Int) (tick : Int) : Int :=
  (sjfScanAcc ps rb tick ps.length).1

/-- One iteration of the SJF-Priority selection scan (main.go lines 250-263).
The accumulator is `(ShortestJobIndex, ShortestJobBurst, ShortestJobPriority)`,
seeded with `(-1, 100000, 100000)`.  Note the source's compound condition
`Priority <= best && Priority < best` in the priority branch, and that this
branch records the *full* `BurstDuration` (line 255), not the remaining
burst, while the burst branch records `RemainingBurst[i]` (line 259). -/
def sjfpStepFn (ps : List Process) (rb : List Int) (tick : Int)
    (best : Int × Int × Int) (i : Nat) : Int × Int × Int :=
  if 0 < rb.getD i 0 ∧ (ps.getD i default).arrivalTime ≤ tick then
    if (ps.getD i default).priority ≤ best.2.2 ∧ (ps.getD i default).priority < best.2.2 then
      ((i : Int), (ps.getD i default).burstDuration, (ps.getD i default).priority)
    else if rb.getD i 0 < best.2.1 then
      ((i : Int), rb.getD i 0, (ps.getD i default).priority)
    else best
  else best

/-- The SJF-Priority scan after visiting indices `0, …, n-1`. -/
def sjfpScanAcc (ps : List Process) (rb : List Int) (tick : Int) (n : Nat) : Int × Int × Int :=
  (List.range n).foldl (sjfpStepFn ps rb tick) (-1, 100000, 100000)

/-- `ShortestJobIndex` computed by the SJF-Priority scan over the whole table. -/
def sjfpSelect (ps : List Process) (rb : List Int) (tick : Int) : Int :=
  (sjfpScanAcc ps rb tick ps.length).1

/-! ## The shared tick loop of SJF and SJF-Priority -/

/-- State of the tick loop shared by SJF and SJF-Priority.  `schedule` is the
row table, `none` for a process whose row was never assigned. -/
structure TickState where
  processes : List Process
  remainingBurst : List Int
  tick : Int
  totalBurstTime : Int
  lastGanttIndex : Int
  lastGanttStartTime : Int
  gantt : List TimeSlice
  schedule : List (Option ScheduleRow)
deriving DecidableEq, Inhabited

/-- The Gantt bookkeeping of one tick (main.go lines 165-182 / 264-281):
returns the new `(lastGanttStartTime, lastGanttIndex, gantt)`, or `none` when
the Go code panics reading `processes[lastGanttIndex]` out of range (the
final-tick branch, lines 167-172 / 266-271, has no `lastGanttIndex != -1`
guard). -/
def ganttUpdate (s : TickState) (idx : Int) : Option (Int × Int × List TimeSlice) :=
  if s.lastGanttIndex ≠ idx ∨ s.tick = s.totalBurstTime - 1 then
    if s.tick = s.totalBurstTime - 1 then
      match goIndex s.processes s.lastGanttIndex with
      | none => none
      | some p =>
        some (s.tick, idx, s.gantt ++ [⟨p.processID, s.lastGanttStartTime, s.tick + 1⟩])
    else if s.lastGanttIndex ≠ -1 then
      match goIndex s.processes s.lastGanttIndex with
      | none => none
      | some p =>
        some (s.tick, idx, s.gantt ++ [⟨p.processID, s.lastGanttStartTime, s.tick⟩])
    else
      some (s.tick, idx, s.gantt)
  else
    some (s.lastGanttStartTime, s.lastGanttIndex, s.gantt)

/-- One iteration of the `for tick := 0; tick < totalBurstTime;` loop body
(main.go lines 153-212 / 244-309), parametrised by the selection scan.
After the Gantt bookkeeping the tick is incremented; an idle tick
(`ShortestJobIndex == -1`) extends `totalBurstTime`, otherwise the selected
process's remaining burst is decremented and, on reaching zero, its schedule
row is written (`select` only ever yields `-1` or an index `< len`, so the
writes `RemainingBurst[idx]--` and `schedule[idx] = …` are in range). -/
def tickStep (select : List Process → List Int → Int → Int) (s : TickState) :
    Option TickState :=
  let idx := select s.processes s.remainingBurst s.tick
  match ganttUpdate s idx with
  | none => none
  | some g =>
    let tick' := s.tick + 1
    if idx = -1 then
      some { s with
             tick := tick'
             totalBurstTime := s.totalBurstTime + 1
             lastGanttStartTime := g.1
             lastGanttIndex := g.2.1
             gantt := g.2.2 }
    else
      let j := idx.toNat
      let rb' := s.remainingBurst.set j (s.remainingBurst.getD j 0 - 1)
      let p := s.processes.getD j default
      if rb'.getD j 0 = 0 then
        some { s with
               remainingBurst := rb'
               tick := tick'
               lastGanttStartTime := g.1
               lastGanttIndex := g.2.1
               gantt := g.2.2
               schedule := s.schedule.set j (some
                 ⟨p.processID, p.priority, p.burstDuration, p.arrivalTime,
                  tick' - p.arrivalTime - p.burstDuration, tick' - p.arrivalTime, tick'⟩) }
      else
        some { s with
               remainingBurst := rb'
               tick := tick'
               lastGanttStartTime := g.1
               lastGanttIndex := g.2.1
               gantt := g.2.2 }

/-- The fuel-indexed tick loop: runs `tickStep` while `tick < totalBurstTime`
and fuel remains; `none` models a runtime panic. -/
def tickLoop (select : List Process → List Int → Int → Int) :
    Nat → TickState → Option TickState
  | 0, s => some s
  | Nat.succ fuel, s =>
    if s.tick < s.totalBurstTime then
      match tickStep select s with
      | none => none
      | some s' => tickLoop select fuel s'
    else some s

/-- The initial state of the tick loop (main.go lines 135-151 / 226-242). -/
def initTickState (ps : List Process) : TickState :=
  { processes := ps
    remainingBurst := ps.map (fun p => p.burstDuration)
    tick := 0
    totalBurstTime := sumBurst ps
    lastGanttIndex := -1
    lastGanttStartTime := 0
    gantt := []
    schedule := List.replicate ps.length none }

/-- `SJFSchedule` (main.go lines 134-222), as a fuel-indexed simulation. -/
def SJFSchedule (ps : List Process) (fuel : Nat) : Option TickState :=
  tickLoop sjfSelect fuel (initTickState ps)

/-- `SJFPrioritySchedule` (main.go lines 225-320), as a fuel-indexed
simulation. -/
def SJFPrioritySchedule (ps : List Process) (fuel : Nat) : Option TickState :=
  tickLoop sjfpSelect fuel (initTickState ps)

/-! ## Round-Robin (main.go lines 324-444) -/

/-- The fixed quantum (main.go line 339). -/
def QuantumTime : Int := 3

/-- State of the Round-Robin loops.  `processes` is the input slice, whose
`BurstDuration` fields RR decrements in place. -/
structure RRState where
  processes : List Process
  serviceTime : Int
  ogBurst : List Int
  schedule : List (Option ScheduleRow)
  gantt : List TimeSlice
deriving DecidableEq, Inhabited

/-- The visit of process `i` in one pass of RR (main.go lines 344-430).
`waitingTime` is assigned before every use inside each branch, so it is
modelled as a local. -/
def rrVisit (s : RRState) (i : Nat) : RRState :=
  let p := s.processes.getD i default
  if p.burstDuration ≥ QuantumTime then
    let waiting0 := s.serviceTime - p.arrivalTime
    let og := if s.ogBurst.getD i 0 = 0 then p.burstDuration else s.ogBurst.getD i 0
    let start := waiting0 + p.arrivalTime
    let turnaround := QuantumTime + waiting0
    let completion := QuantumTime + p.arrivalTime + waiting0
    let waiting1 := turnaround - og
    let serviceTime' := s.serviceTime + QuantumTime
    { processes := s.processes.set i { p with burstDuration := p.burstDuration - QuantumTime }
      serviceTime := serviceTime'
      ogBurst := s.ogBurst.set i og
      schedule := s.schedule.set i (some
        ⟨p.processID, p.priority, og, p.arrivalTime, waiting1, turnaround, completion⟩)
      gantt := s.gantt ++ [⟨p.processID, start, serviceTime'⟩] }
  else if p.burstDuration < QuantumTime ∧ p.burstDuration > 0 then
    let waiting0 := s.serviceTime - p.arrivalTime
    let og := if s.ogBurst.getD i 0 = 0 then p.burstDuration else s.ogBurst.getD i 0
    let start := waiting0 + p.arrivalTime
    let turnaround := p.burstDuration + waiting0
    let completion := p.burstDuration + p.arrivalTime + waiting0
    let waiting1 := turnaround - og
    let serviceTime' := s.serviceTime + p.burstDuration
    { processes := s.processes.set i { p with burstDuration := p.burstDuration - p.burstDuration }
      serviceTime := serviceTime'
      ogBurst := s.ogBurst.set i og
      schedule := s.schedule.set i (some
        ⟨p.processID, p.priority, og, p.arrivalTime, waiting1, turnaround, completion⟩)
      gantt := s.gantt ++ [⟨p.processID, start, serviceTime'⟩] }
  else s

/-- One full pass over the table (the `for i := range processes` loop,
main.go lines 344-430). -/
def rrPass (s : RRState) : RRState :=
  (List.range s.processes.length).foldl rrVisit s

/-- The outer `for tick < 1000` loop, as a countdown of passes. -/
def rrLoop : Nat → RRState → RRState
  | 0, s => s
  | Nat.succ n, s => rrLoop n (rrPass s)

/-- `RRSchedule` (main.go lines 324-444): exactly 1000 passes over the
table. -/
def RRSchedule (ps : List Process) : RRState :=
  rrLoop 1000 ⟨ps, 0, List.replicate ps.length 0, List.replicate ps.length none, []⟩

/-! ## List index helper lemmas -/

lemma getD_set_self {α : Type} (l : List α) (i : Nat) (h : i < l.length) (a d : α) :
    (l.set i a).getD i d = a := by
  rw [List.getD_eq_getElem _ _ (by simpa using h)]
  simp

lemma getD_set_ne {α : Type} (l : List α) (i j : Nat) (hij : i ≠ j) (a d : α) :
    (l.set i a).getD j d = l.getD j d := by
  rcases Nat.lt_or_ge j l.length with h | h
  · rw [List.getD_eq_getElem _ _ (by simpa using h), List.getD_eq_getElem _ _ h]
    exact List.getElem_set_ne hij _
  · rw [List.getD_eq_default _ _ (by simpa using h), List.getD_eq_default _ _ h]

lemma getD_replicate {α : Type} (n i : Nat) (d : α) :
    (List.replicate n d).getD i d = d := by
  rcases Nat.lt_or_ge i n with h | h
  · rw [List.getD_eq_getElem _ _ (by simpa using h)]
    simp
  · exact List.getD_eq_default _ _ (by simpa using h)

lemma goIndex_negOne {α : Type} (xs : List α) : goIndex xs (-1) = none := by
  unfold goIndex
  rw [dif_neg]
  intro h
  exact absurd h.1 (by norm_num)

lemma goIndex_some {α : Type} [Inhabited α] (xs : List α) (i : Int) (p : α)
    (h : goIndex xs i = some p) : 0 ≤ i ∧ i.toNat < xs.length ∧ p = xs.getD i.toNat default := by
  unfold goIndex at h
  split at h
  · next hc =>
    refine ⟨hc.1, hc.2, ?_⟩
    cases h
    rw [List.getD_eq_getElem _ _ hc.2]
    simp
  · exact absurd h (by simp)

/-! ## Selection-scan lemmas -/

lemma sjfScanAcc_succ (ps : List Process) (rb : List Int) (tick : Int) (n : Nat) :
    sjfScanAcc ps rb tick (n + 1) =
      sjfStepFn ps rb tick (sjfScanAcc ps rb tick n) n := by
  unfold sjfScanAcc
  rw [List.range_succ, List.foldl_append, List.foldl_cons, List.foldl_nil]

lemma sjfpScanAcc_succ (ps : List Process) (rb : List Int) (tick : Int) (n : Nat) :
    sjfpScanAcc ps rb tick (n + 1) =
      sjfpStepFn ps rb tick (sjfpScanAcc ps rb tick n) n := by
  unfold sjfpScanAcc
  rw [List.range_succ, List.foldl_append, List.foldl_cons, List.foldl_nil]

lemma sjfStepFn_not_elig (ps : List Process) (rb : List Int) (tick : Int) (i : Nat)
    (h : ¬ Elig ps rb tick i) (best : Int × Int) :
    sjfStepFn ps rb tick best i = best := by
  unfold sjfStepFn
  rw [if_neg]
  exact fun hc => h ⟨hc.1, hc.2.1⟩

lemma sjfpStepFn_not_elig (ps : List Process) (rb : List Int) (tick : Int) (i : Nat)
    (h : ¬ Elig ps rb tick i) (best : Int × Int × Int) :
    sjfpStepFn ps rb tick best i = best := by
  unfold sjfpStepFn
  rw [if_neg]
  exact fun hc => h hc

lemma sjfScanAcc_seg (ps : List Process) (rb : List Int) (tick : Int) (u : Nat) :
    ∀ v, u ≤ v → (∀ k, u ≤ k → k < v → ¬ Elig ps rb tick k) →
      sjfScanAcc ps rb tick v = sjfScanAcc ps rb tick u := by
  intro v
  induction v with
  | zero => intro hv _; cases Nat.le_zero.mp hv; rfl
  | succ v ih =>
    intro hv h
    rcases Nat.eq_or_lt_of_le hv with he | hlt
    · rw [he]
    · have huv : u ≤ v := Nat.lt_succ_iff.mp hlt
      rw [sjfScanAcc_succ,
        sjfStepFn_not_elig ps rb tick v (h v huv (Nat.lt_succ_self v)),
        ih huv (fun k hk hk' => h k hk (Nat.lt_succ_of_lt hk'))]

lemma sjfpScanAcc_seg (ps : List Process) (rb : List Int) (tick : Int) (u : Nat) :
    ∀ v, u ≤ v → (∀ k, u ≤ k → k < v → ¬ Elig ps rb tick k) →
      sjfpScanAcc ps rb tick v = sjfpScanAcc ps rb tick u := by
  intro v
  induction v with
  | zero => intro hv _; cases Nat.le_zero.mp hv; rfl
  | succ v ih =>
    intro hv h
    rcases Nat.eq_or_lt_of_le hv with he | hlt
    · rw [he]
    · have huv : u ≤ v := Nat.lt_succ_iff.mp hlt
      rw [sjfpScanAcc_succ,
        sjfpStepFn_not_elig ps rb tick v (h v huv (Nat.lt_succ_self v)),
        ih huv (fun k hk hk' => h k hk (Nat.lt_succ_of_lt hk'))]

lemma sjfSelect_of_no_elig (ps : List Process) (rb : List Int) (tick : Int)
    (h : ∀ k, ¬ Elig ps rb tick k) : sjfSelect ps rb tick = -1 := by
  unfold sjfSelect
  rw [show sjfScanAcc ps rb tick ps.length = sjfScanAcc ps rb tick 0 from
    sjfScanAcc_seg ps rb tick 0 ps.length (Nat.zero_le _) (fun k _ _ => h k)]
  rfl

lemma sjfpSelect_of_no_elig (ps : List Process) (rb : List Int) (tick : Int)
    (h : ∀ k, ¬ Elig ps rb tick k) : sjfpSelect ps rb tick = -1 := by
  unfold sjfpSelect
  rw [show sjfpScanAcc ps rb tick ps.length = sjfpScanAcc ps rb tick 0 from
    sjfpScanAcc_seg ps rb tick 0 ps.length (Nat.zero_le _) (fun k _ _ => h k)]
  rfl

/-- Characterisation of the SJF scan when every remaining burst is at most
the sentinel 100000: after visiting indices `0, …, n-1` the accumulator is
either still the seed (no eligible index seen) or holds the last index among
`0, …, n-1` achieving the minimum remaining burst over the eligible ones. -/
lemma sjfScanAcc_char (ps : List Process) (rb : List Int) (tick : Int)
    (hbound : ∀ i, i < rb.length → rb.getD i 0 ≤ 100000) : ∀ n,
    ((∀ k, k < n → ¬ Elig ps rb tick k) ∧ sjfScanAcc ps rb tick n = (-1, 100000)) ∨
    (∃ j, j < n ∧ Elig ps rb tick j ∧
      sjfScanAcc ps rb tick n = ((j : Int), rb.getD j 0) ∧
      (∀ k, k < n → Elig ps rb tick k → rb.getD j 0 ≤ rb.getD k 0) ∧
      (∀ k, k < n → Elig ps rb tick k → rb.getD k 0 = rb.getD j 0 → k ≤ j)) := by
  intro n
  induction n with
  | zero =>
    left
    exact ⟨fun k hk => absurd hk (Nat.not_lt_zero k), rfl⟩
  | succ n ih =>
    have hstep := sjfScanAcc_succ ps rb tick n
    by_cases he : Elig ps rb tick n
    · have hlen : n < rb.length := by
        by_contra hn
        have := List.getD_eq_default rb (0 : Int) (Nat.le_of_not_lt hn)
        have h1 := he.1
        omega
      have hb : rb.getD n 0 ≤ 100000 := hbound n hlen
      rcases ih with ⟨hnone, hacc⟩ | ⟨j, hj, hej, hacc, hmin, hlast⟩
      · right
        refine ⟨n, Nat.lt_succ_self n, he, ?_, ?_, ?_⟩
        · rw [hstep, hacc]
          unfold sjfStepFn
          rw [if_pos ⟨he.1, he.2, hb⟩]
        · intro k hk hek
          rcases Nat.lt_succ_iff_lt_or_eq.mp hk with hk' | hk'
          · exact absurd hek (hnone k hk')
          · rw [hk']
        · intro k hk hek _
          rcases Nat.lt_succ_iff_lt_or_eq.mp hk with hk' | hk'
          · exact absurd hek (hnone k hk')
          · omega
      · by_cases hle : rb.getD n 0 ≤ rb.getD j 0
        · right
          refine ⟨n, Nat.lt_succ_self n, he, ?_, ?_, ?_⟩
          · rw [hstep, hacc]
            unfold sjfStepFn
            rw [if_pos ⟨he.1, he.2, hle⟩]
          · intro k hk hek
            rcases Nat.lt_succ_iff_lt_or_eq.mp hk with hk' | hk'
            · exact le_trans hle (hmin k hk' hek)
            · rw [hk']
          · intro k hk _ _
            exact Nat.lt_succ_iff.mp hk
        · right
          refine ⟨j, Nat.lt_succ_of_lt hj, hej, ?_, ?_, ?_⟩
          · rw [hstep, hacc]
            unfold sjfStepFn
            rw [if_neg]
            intro hc
            exact hle hc.2.2
          · intro k hk hek
            rcases Nat.lt_succ_iff_lt_or_eq.mp hk with hk' | hk'
            · exact hmin k hk' hek
            · rw [hk']; omega
          · intro k hk hek heq
            rcases Nat.lt_succ_iff_lt_or_eq.mp hk with hk' | hk'
            · exact hlast k hk' hek heq
            · subst hk'; omega
    · rcases ih with ⟨hnone, hacc⟩ | ⟨j, hj, hej, hacc, hmin, hlast⟩
      · left
        refine ⟨?_, ?_⟩
        · intro k hk
          rcases Nat.lt_succ_iff_lt_or_eq.mp hk with hk' | hk'
          · exact hnone k hk'
          · rw [hk']; exact he
        · rw [hstep, hacc, sjfStepFn_not_elig ps rb tick n he]
      · right
        refine ⟨j, Nat.lt_succ_of_lt hj, hej, ?_, ?_, ?_⟩
        · rw [hstep, hacc, sjfStepFn_not_elig ps rb tick n he]
        · intro k hk hek
          rcases Nat.lt_succ_iff_lt_or_eq.mp hk with hk' | hk'
          · exact hmin k hk' hek
          · rw [hk'] at hek; exact absurd hek he
        · intro k hk hek heq
          rcases Nat.lt_succ_iff_lt_or_eq.mp hk with hk' | hk'
          · exact hlast k hk' hek heq
          · rw [hk'] at hek; exact absurd hek he

/-- When exactly two indices are eligible at a tick and the later one has the
strictly smaller priority value (below the sentinel), the SJF-Priority scan
selects the later one: every other index is skipped, the earlier one records
its own priority, and the later one then wins the priority branch. -/
lemma sjfpSelect_two_elig (ps : List Process) (rb : List Int) (tick : Int)
    (i j : Nat) (hij : i < j) (hjlen : j < ps.length)
    (hei : Elig ps rb tick i) (hej : Elig ps rb tick j)
    (honly : ∀ k, Elig ps rb tick k → k = i ∨ k = j)
    (hpj : (ps.getD j default).priority < (ps.getD i default).priority)
    (hpj2 : (ps.getD j default).priority < 100000) :
    sjfpSelect ps rb tick = (j : Int) := by
  have hAi : sjfpScanAcc ps rb tick i = (-1, 100000, 100000) := by
    rw [sjfpScanAcc_seg ps rb tick 0 i (Nat.zero_le _)
      (fun k _ hk hek => by rcases honly k hek with rfl | rfl <;> omega)]
    rfl
  have hmid : (sjfpScanAcc ps rb tick (i + 1)).2.2 = 100000 ∨
      (sjfpScanAcc ps rb tick (i + 1)).2.2 = (ps.getD i default).priority := by
    rw [sjfpScanAcc_succ, hAi]
    unfold sjfpStepFn
    rw [if_pos (show 0 < rb.getD i 0 ∧ (ps.getD i default).arrivalTime ≤ tick from hei)]
    by_cases c1 : (ps.getD i default).priority ≤ ((-1:Int), (100000:Int), (100000:Int)).2.2 ∧
        (ps.getD i default).priority < ((-1:Int), (100000:Int), (100000:Int)).2.2
    · rw [if_pos c1]
      right
      rfl
    · rw [if_neg c1]
      by_cases c2 : rb.getD i 0 < ((-1:Int), (100000:Int), (100000:Int)).2.1
      · rw [if_pos c2]
        right
        rfl
      · rw [if_neg c2]
        left
        rfl
  have hAj : sjfpScanAcc ps rb tick j = sjfpScanAcc ps rb tick (i + 1) :=
    sjfpScanAcc_seg ps rb tick (i + 1) j (by omega)
      (fun k hk hk' hek => by rcases honly k hek with rfl | rfl <;> omega)
  have hlt : (ps.getD j default).priority < (sjfpScanAcc ps rb tick j).2.2 := by
    rw [hAj]
    rcases hmid with h | h <;> rw [h]
    · exact hpj2
    · exact hpj
  have hAj1 : sjfpScanAcc ps rb tick (j + 1) =
      ((j : Int), (ps.getD j default).burstDuration, (ps.getD j default).priority) := by
    rw [sjfpScanAcc_succ]
    unfold sjfpStepFn
    rw [if_pos (show 0 < rb.getD j 0 ∧ (ps.getD j default).arrivalTime ≤ tick from hej),
      if_pos ⟨le_of_lt hlt, hlt⟩]
  have hAn : sjfpScanAcc ps rb tick ps.length = sjfpScanAcc ps rb tick (j + 1) :=
    sjfpScanAcc_seg ps rb tick (j + 1) ps.length (by omega)
      (fun k hk hk' hek => by rcases honly k hek with rfl | rfl <;> omega)
  unfold sjfpSelect
  rw [hAn, hAj1]

/-! ## Tick-loop invariant lemmas -/

lemma getD_set_cases {α : Type} (l : List α) (u i : Nat) (a d : α) :
    (l.set u a).getD i d = if u = i ∧ u < l.length then a else l.getD i d := by
  by_cases hui : u = i
  · subst hui
    by_cases hl : u < l.length
    · rw [getD_set_self l u hl a d, if_pos ⟨rfl, hl⟩]
    · rw [if_neg (fun hc => hl hc.2)]
      rw [List.getD_eq_default _ _ (by simpa using Nat.le_of_not_lt hl),
        List.getD_eq_default _ _ (Nat.le_of_not_lt hl)]
  · rw [getD_set_ne l u i hui a d, if_neg (fun hc => hui hc.1)]

lemma tickStep_processes (select : List Process → List Int → Int → Int)
    (s s' : TickState) (h : tickStep select s = some s') :
    s'.processes = s.processes := by
  simp only [tickStep] at h
  cases hg : ganttUpdate s (select s.processes s.remainingBurst s.tick) with
  | none => rw [hg] at h; cases h
  | some g =>
    rw [hg] at h
    dsimp only at h
    split at h
    · cases h; rfl
    · split at h
      · cases h; rfl
      · cases h; rfl

lemma tickLoop_processes (select : List Process → List Int → Int → Int) :
    ∀ (fuel : Nat) (s s' : TickState),
      tickLoop select fuel s = some s' → s'.processes = s.processes := by
  intro fuel
  induction fuel with
  | zero => intro s s' h; cases h; rfl
  | succ fuel ih =>
    intro s s' h
    unfold tickLoop at h
    split at h
    · cases hs : tickStep select s with
      | none => rw [hs] at h; cases h
      | some s1 =>
        rw [hs] at h
        rw [ih s1 s' h, tickStep_processes select s s1 hs]
    · cases h; rfl

/-- The row invariant of the shared tick loop: every row already written
satisfies the metric identities and shows the input burst of its process. -/
def RowInv (ps : List Process) (s : TickState) : Prop :=
  ∀ i r, s.schedule.getD i none = some r →
    r.turnaround = r.waitingTime + r.burst ∧
    r.completion = r.arrivalTime + r.waitingTime + r.burst ∧
    r.burst = (ps.getD i default).burstDuration

lemma tickStep_rowInv (select : List Process → List Int → Int → Int)
    (ps : List Process) (s s' : TickState) (hps : s.processes = ps)
    (h : tickStep select s = some s') (hinv : RowInv ps s) : RowInv ps s' := by
  simp only [tickStep] at h
  cases hg : ganttUpdate s (select s.processes s.remainingBurst s.tick) with
  | none => rw [hg] at h; cases h
  | some g =>
    rw [hg] at h
    dsimp only at h
    split at h
    · cases h; exact hinv
    · next hidx =>
      split at h
      · cases h
        intro i r hr
        rw [getD_set_cases] at hr
        split at hr
        · next hcond =>
          cases hr
          refine ⟨by ring, by ring, ?_⟩
          rw [← hcond.1, hps]
        · exact hinv i r hr
      · cases h; exact hinv

lemma tickLoop_rowInv (select : List Process → List Int → Int → Int)
    (ps : List Process) : ∀ (fuel : Nat) (s s' : TickState), s.processes = ps →
      RowInv ps s → tickLoop select fuel s = some s' → RowInv ps s' := by
  intro fuel
  induction fuel with
  | zero => intro s s' _ hinv h; cases h; exact hinv
  | succ fuel ih =>
    intro s s' hps hinv h
    unfold tickLoop at h
    split at h
    · cases hs : tickStep select s with
      | none => rw [hs] at h; cases h
      | some s1 =>
        rw [hs] at h
        exact ih s1 s' (by rw [tickStep_processes select s s1 hs, hps])
          (tickStep_rowInv select ps s s1 hps hs hinv) h
    · cases h; exact hinv

lemma rowInv_init (ps : List Process) : RowInv ps (initTickState ps) := by
  intro i r hr
  rw [show (initTickState ps).schedule = List.replicate ps.length none from rfl,
    getD_replicate] at hr
  cases hr

/-- Remaining bursts never exceed a bound they start under (they are only
ever decremented). -/
def RbBound (s : TickState) : Prop :=
  ∀ i, i < s.remainingBurst.length → s.remainingBurst.getD i 0 ≤ 100000

lemma tickStep_rbBound (select : List Process → List Int → Int → Int)
    (s s' : TickState) (h : tickStep select s = some s') (hb : RbBound s) :
    RbBound s' := by
  simp only [tickStep] at h
  cases hg : ganttUpdate s (select s.processes s.remainingBurst s.tick) with
  | none => rw [hg] at h; cases h
  | some g =>
    rw [hg] at h
    dsimp only at h
    split at h
    · cases h; exact hb
    · have key : ∀ (u : Nat) (l : List Int), (∀ i, i < l.length → l.getD i 0 ≤ 100000) →
          ∀ i, i < (l.set u (l.getD u 0 - 1)).length →
            (l.set u (l.getD u 0 - 1)).getD i 0 ≤ 100000 := by
        intro u l hl i hi
        rw [List.length_set] at hi
        rw [getD_set_cases]
        split
        · next hc =>
          have := hl _ hc.2
          omega
        · exact hl i hi
      split at h
      · cases h
        intro i hi
        exact key _ _ hb i hi
      · cases h
        intro i hi
        exact key _ _ hb i hi

lemma tickLoop_rbBound (select : List Process → List Int → Int → Int) :
    ∀ (fuel : Nat) (s s' : TickState), RbBound s →
      tickLoop select fuel s = some s' → RbBound s' := by
  intro fuel
  induction fuel with
  | zero => intro s s' hb h; cases h; exact hb
  | succ fuel ih =>
    intro s s' hb h
    unfold tickLoop at h
    split at h
    · cases hs : tickStep select s with
      | none => rw [hs] at h; cases h
      | some s1 =>
        rw [hs] at h
        exact ih s1 s' (tickStep_rbBound select s s1 hs hb) h
    · cases h; exact hb

/-! ## Idle-tick and Gantt lemmas -/

lemma tickStep_idle (select : List Process → List Int → Int → Int)
    (s s' : TickState)
    (hsel : select s.processes s.remainingBurst s.tick = -1)
    (h : tickStep select s = some s') :
    s'.remainingBurst = s.remainingBurst ∧
    s'.totalBurstTime = s.totalBurstTime + 1 ∧ s'.tick = s.tick + 1 := by
  simp only [tickStep, hsel, if_true, eq_self_iff_true] at h
  cases hg : ganttUpdate s (-1) with
  | none => rw [hg] at h; cases h
  | some g =>
    rw [hg] at h
    dsimp only at h
    cases h
    exact ⟨rfl, rfl, rfl⟩

lemma ganttUpdate_cases (s : TickState) (idx ls li : Int) (g : List TimeSlice)
    (h : ganttUpdate s idx = some (ls, li, g)) :
    (ls = s.lastGanttStartTime ∧ li = s.lastGanttIndex ∧ g = s.gantt) ∨
    (ls = s.tick ∧ li = idx ∧
      (g = s.gantt ∨ (0 ≤ s.lastGanttIndex ∧
        ∃ pid stop, g = s.gantt ++ [⟨pid, s.lastGanttStartTime, stop⟩]))) := by
  unfold ganttUpdate at h
  split at h
  · split at h
    · cases hgi : goIndex s.processes s.lastGanttIndex with
      | none => rw [hgi] at h; cases h
      | some p =>
        rw [hgi] at h
        simp only [Option.some_inj, Prod.mk.injEq] at h
        obtain ⟨h1, h2, h3⟩ := h
        exact Or.inr ⟨h1.symm, h2.symm, Or.inr ⟨(goIndex_some _ _ _ hgi).1,
          p.processID, s.tick + 1, h3.symm⟩⟩
    · split at h
      · cases hgi : goIndex s.processes s.lastGanttIndex with
        | none => rw [hgi] at h; cases h
        | some p =>
          rw [hgi] at h
          simp only [Option.some_inj, Prod.mk.injEq] at h
          obtain ⟨h1, h2, h3⟩ := h
          exact Or.inr ⟨h1.symm, h2.symm, Or.inr ⟨(goIndex_some _ _ _ hgi).1,
            p.processID, s.tick, h3.symm⟩⟩
      · simp only [Option.some_inj, Prod.mk.injEq] at h
        obtain ⟨h1, h2, h3⟩ := h
        exact Or.inr ⟨h1.symm, h2.symm, Or.inl h3.symm⟩
  · simp only [Option.some_inj, Prod.mk.injEq] at h
    obtain ⟨h1, h2, h3⟩ := h
    exact Or.inl ⟨h1.symm, h2.symm, h3.symm⟩

/-- Invariant used for the idle-handling claim: once the simulation has
reached tick `a` with an empty Gantt list and no open slice, every slice
ever emitted starts at or after `a`. -/
def GanttLow (a : Int) (s : TickState) : Prop :=
  a ≤ s.tick ∧ (∀ sl ∈ s.gantt, a ≤ sl.start) ∧
    (s.lastGanttIndex = -1 ∨ a ≤ s.lastGanttStartTime)

lemma tickStep_ganttLow (select : List Process → List Int → Int → Int)
    (a : Int) (s s' : TickState)
    (h : tickStep select s = some s') (hJ : GanttLow a s) : GanttLow a s' := by
  obtain ⟨htick, hslices, hlast⟩ := hJ
  simp only [tickStep] at h
  cases hg : ganttUpdate s (select s.processes s.remainingBurst s.tick) with
  | none => rw [hg] at h; cases h
  | some g =>
    obtain ⟨ls, li, gl⟩ := g
    have hcases := ganttUpdate_cases s _ ls li gl hg
    rw [hg] at h
    dsimp only at h
    have hgl : (∀ sl ∈ gl, a ≤ sl.start) ∧ (li = -1 ∨ a ≤ ls) := by
      rcases hcases with ⟨h1, h2, h3⟩ | ⟨h1, h2, h3⟩
      · subst h1; subst h2; subst h3
        exact ⟨hslices, hlast⟩
      · subst h1
        refine ⟨?_, Or.inr htick⟩
        rcases h3 with h3 | ⟨hge, pid, stop, h3⟩
        · subst h3; exact hslices
        · subst h3
          intro sl hsl
          rcases List.mem_append.mp hsl with hsl | hsl
          · exact hslices sl hsl
          · rcases List.mem_singleton.mp hsl with rfl
            rcases hlast with hl | hl
            · omega
            · exact hl
    split at h
    · cases h
      exact ⟨show a ≤ s.tick + 1 by omega, hgl.1, hgl.2⟩
    · split at h
      · cases h
        exact ⟨show a ≤ s.tick + 1 by omega, hgl.1, hgl.2⟩
      · cases h
        exact ⟨show a ≤ s.tick + 1 by omega, hgl.1, hgl.2⟩

lemma tickLoop_ganttLow (select : List Process → List Int → Int → Int) (a : Int) :
    ∀ (fuel : Nat) (s s' : TickState), GanttLow a s →
      tickLoop select fuel s = some s' → GanttLow a s' := by
  intro fuel
  induction fuel with
  | zero => intro s s' hJ h; cases h; exact hJ
  | succ fuel ih =>
    intro s s' hJ h
    unfold tickLoop at h
    split at h
    · cases hs : tickStep select s with
      | none => rw [hs] at h; cases h
      | some s1 =>
        rw [hs] at h
        exact ih s1 s' (tickStep_ganttLow select a s s1 hs hJ) h
    · cases h; exact hJ

/-- The state after `t` initial idle ticks: only `tick` and the extended
horizon differ from the initial state. -/
def idleState (ps : List Process) (t : Nat) : TickState :=
  { initTickState ps with tick := (t : Int), totalBurstTime := sumBurst ps + (t : Int) }

lemma idleState_zero (ps : List Process) : idleState ps 0 = initTickState ps := by
  unfold idleState
  rw [show ((0 : Nat) : Int) = 0 from rfl, add_zero]
  rfl

lemma no_elig_of_not_arrived (ps : List Process) (a : Nat)
    (harr : ∀ p ∈ ps, (a : Int) ≤ p.arrivalTime) (t : Nat) (ht : t < a) :
    ∀ k, ¬ Elig ps (ps.map fun p => p.burstDuration) (t : Int) k := by
  intro k hk
  by_cases hklen : k < ps.length
  · have hmem : ps.getD k default ∈ ps := by
      rw [List.getD_eq_getElem _ _ hklen]
      exact List.getElem_mem _
    have h1 := harr _ hmem
    have h2 := hk.2
    have h3 : (t : Int) < (a : Int) := by exact_mod_cast ht
    omega
  · have hrb : (ps.map fun p => p.burstDuration).getD k 0 = 0 :=
      List.getD_eq_default _ _ (by simpa using Nat.le_of_not_lt hklen)
    have h1 := hk.1
    omega

lemma tickStep_idle_advance (select : List Process → List Int → Int → Int)
    (hsel : ∀ qs rb t, (∀ k, ¬ Elig qs rb t k) → select qs rb t = -1)
    (ps : List Process) (a : Nat) (harr : ∀ p ∈ ps, (a : Int) ≤ p.arrivalTime)
    (hT : 2 ≤ sumBurst ps) (t : Nat) (ht : t < a) :
    tickStep select (idleState ps t) = some (idleState ps (t + 1)) := by
  have hsel' : select ps (ps.map fun p => p.burstDuration) (t : Int) = -1 :=
    hsel _ _ _ (no_elig_of_not_arrived ps a harr t ht)
  have hgantt : ganttUpdate (idleState ps t) (-1) =
      some ((0 : Int), (-1 : Int), ([] : List TimeSlice)) := by
    unfold ganttUpdate
    rw [if_neg]
    · rfl
    · rintro (hA | hB)
      · exact hA rfl
      · have hB' : (t : Int) = sumBurst ps + (t : Int) - 1 := hB
        omega
  have hproj : select (idleState ps t).processes (idleState ps t).remainingBurst
      (idleState ps t).tick = -1 := hsel'
  simp only [tickStep]
  rw [hproj, hgantt]
  dsimp only
  rw [if_pos rfl]
  simp only [Option.some_inj, idleState, initTickState, TickState.mk.injEq]
  refine ⟨trivial, trivial, by push_cast; ring, by push_cast; ring,
    trivial, trivial, trivial, trivial⟩

lemma tickLoop_succ (select : List Process → List Int → Int → Int)
    (fuel : Nat) (s : TickState) :
    tickLoop select (fuel + 1) s =
      if s.tick < s.totalBurstTime then
        match tickStep select s with
        | none => none
        | some s' => tickLoop select fuel s'
      else some s := rfl

/-- Under an everywhere-late arrival bound `a` (and total burst at least 2 so
the defective final-tick Gantt branch is not reached), the first `u ≤ a`
ticks of the loop are idle: the run factors through `idleState ps u`. -/
lemma tickLoop_idle_phase (select : List Process → List Int → Int → Int)
    (hsel : ∀ qs rb t, (∀ k, ¬ Elig qs rb t k) → select qs rb t = -1)
    (ps : List Process) (a : Nat) (harr : ∀ p ∈ ps, (a : Int) ≤ p.arrivalTime)
    (hT : 2 ≤ sumBurst ps) :
    ∀ u, u ≤ a → ∀ f, tickLoop select (u + f) (initTickState ps) =
      tickLoop select f (idleState ps u) := by
  intro u
  induction u with
  | zero =>
    intro _ f
    rw [Nat.zero_add, idleState_zero]
  | succ u ih =>
    intro hu f
    have hu' : u ≤ a := by omega
    have hua : u < a := by omega
    rw [show u + 1 + f = u + (1 + f) from by omega, ih hu' (1 + f),
      show 1 + f = f + 1 from by omega, tickLoop_succ]
    rw [if_pos (show (idleState ps u).tick < (idleState ps u).totalBurstTime from by
      show (u : Int) < sumBurst ps + (u : Int)
      omega)]
    rw [tickStep_idle_advance select hsel ps a harr hT u hua]

/-! ## FCFS lemmas -/

/-- Modelled from the spec's FCFS waiting rule (section 4.1): waiting time of
each process in input order; `service` is `serviceTimeSoFar` and `wait`
carries the previous process's waiting time when the arrival time is 0. -/
def fcfsSpecWaitsAux (service wait : Int) : List Process → List Int
  | [] => []
  | p :: rest =>
    let w := if p.arrivalTime > 0 then service - p.arrivalTime else wait
    w :: fcfsSpecWaitsAux (service + p.burstDuration) w rest

/-- The spec's FCFS waiting times for a whole table. -/
def fcfsSpecWaits (ps : List Process) : List Int :=
  fcfsSpecWaitsAux 0 0 ps

/-- Closed form of the rows and Gantt slices FCFS emits from a given
`(serviceTimeSoFar, carried waiting time)` state. -/
def fcfsRowsAux (service wait : Int) : List Process → List (ScheduleRow × TimeSlice)
  | [] => []
  | p :: rest =>
    let w := if p.arrivalTime > 0 then service - p.arrivalTime else wait
    (⟨p.processID, p.priority, p.burstDuration, p.arrivalTime, w,
       p.burstDuration + w, p.burstDuration + p.arrivalTime + w⟩,
     ⟨p.processID, w + p.arrivalTime, service + p.burstDuration⟩) ::
      fcfsRowsAux (service + p.burstDuration) w rest

lemma fcfs_foldl (l : List Process) : ∀ (s : FCFSState),
    (l.foldl fcfsStep s).schedule =
      s.schedule ++ (fcfsRowsAux s.serviceTime s.waitingTime l).map Prod.fst ∧
    (l.foldl fcfsStep s).gantt =
      s.gantt ++ (fcfsRowsAux s.serviceTime s.waitingTime l).map Prod.snd ∧
    (l.foldl fcfsStep s).processes = s.processes := by
  induction l with
  | nil =>
    intro s
    refine ⟨?_, ?_, rfl⟩ <;> simp [fcfsRowsAux]
  | cons p rest ih =>
    intro s
    rw [List.foldl_cons]
    obtain ⟨h1, h2, h3⟩ := ih (fcfsStep s p)
    refine ⟨?_, ?_, ?_⟩
    · rw [h1]
      simp only [fcfsStep, fcfsRowsAux, List.map_cons, List.singleton_append,
        List.append_assoc, List.cons_append, List.nil_append]
    · rw [h2]
      simp only [fcfsStep, fcfsRowsAux, List.map_cons, List.singleton_append,
        List.append_assoc, List.cons_append, List.nil_append]
    · rw [h3]
      simp only [fcfsStep]

lemma fcfsRowsAux_length (l : List Process) : ∀ (service wait : Int),
    (fcfsRowsAux service wait l).length = l.length := by
  induction l with
  | nil => intro service wait; rfl
  | cons p rest ih =>
    intro service wait
    simp only [fcfsRowsAux, List.length_cons]
    rw [ih]

lemma fcfsRowsAux_waits (l : List Process) : ∀ (service wait : Int),
    (fcfsRowsAux service wait l).map (fun rc => rc.1.waitingTime) =
      fcfsSpecWaitsAux service wait l := by
  induction l with
  | nil => intro service wait; rfl
  | cons p rest ih =>
    intro service wait
    simp only [fcfsRowsAux, fcfsSpecWaitsAux, List.map_cons]
    rw [ih]

lemma fcfsRowsAux_fields (l : List Process) : ∀ (service wait : Int) (i : Nat),
    i < l.length →
    ((fcfsRowsAux service wait l).getD i default).1.processID =
      (l.getD i default).processID ∧
    ((fcfsRowsAux service wait l).getD i default).2.start =
      ((fcfsRowsAux service wait l).getD i default).1.waitingTime +
        ((fcfsRowsAux service wait l).getD i default).1.arrivalTime ∧
    ((fcfsRowsAux service wait l).getD i default).1.completion =
      ((fcfsRowsAux service wait l).getD i default).2.start +
        ((fcfsRowsAux service wait l).getD i default).1.burst ∧
    ((fcfsRowsAux service wait l).getD i default).2.stop =
      service + sumBurst (l.take (i + 1)) := by
  induction l with
  | nil =>
    intro service wait i hi
    cases hi
  | cons p rest ih =>
    intro service wait i hi
    cases i with
    | zero =>
      simp only [fcfsRowsAux, List.getD_cons_zero, List.take_succ_cons,
        List.take_zero]
      refine ⟨trivial, by ring_nf, by ring, ?_⟩
      show service + p.burstDuration = service + sumBurst [p]
      simp [sumBurst]
    | succ i =>
      have hi' : i < rest.length := by simpa using hi
      obtain ⟨g1, g2, g3, g4⟩ := ih (service + p.burstDuration)
        (if p.arrivalTime > 0 then service - p.arrivalTime else wait) i hi'
      simp only [fcfsRowsAux, List.getD_cons_succ, List.take_succ_cons]
      refine ⟨g1, g2, g3, ?_⟩
      rw [g4]
      show service + p.burstDuration + sumBurst (rest.take (i + 1)) =
        service + sumBurst (p :: rest.take (i + 1))
      simp only [sumBurst, List.map_cons, List.sum_cons]
      ring

/-! ## Round-Robin lemmas -/

lemma rrLoop_succ (n : Nat) (s : RRState) : rrLoop (n + 1) s = rrLoop n (rrPass s) := rfl

lemma rrLoop_add (a : Nat) : ∀ (b : Nat) (s : RRState),
    rrLoop (a + b) s = rrLoop a (rrLoop b s) := by
  intro b
  induction b with
  | zero => intro s; rfl
  | succ b ih =>
    intro s
    rw [show a + (b + 1) = (a + b) + 1 from by omega, rrLoop_succ, ih (rrPass s), rrLoop_succ]

/-- All in-place bursts exhausted: a pass no longer changes anything. -/
def AllZero (s : RRState) : Prop := ∀ p ∈ s.processes, p.burstDuration = 0

lemma rrVisit_allZero (s : RRState) (i : Nat) (h : AllZero s) : rrVisit s i = s := by
  have hp : (s.processes.getD i default).burstDuration = 0 := by
    by_cases hi : i < s.processes.length
    · exact h _ (by rw [List.getD_eq_getElem _ _ hi]; exact List.getElem_mem _)
    · rw [List.getD_eq_default _ _ (Nat.le_of_not_lt hi)]
      rfl
  simp only [rrVisit, hp, QuantumTime]
  norm_num

lemma rrPass_allZero (s : RRState) (h : AllZero s) : rrPass s = s := by
  unfold rrPass
  have key : ∀ idxs : List Nat, List.foldl rrVisit s idxs = s := by
    intro idxs
    induction idxs with
    | nil => rfl
    | cons i rest ih =>
      rw [List.foldl_cons, rrVisit_allZero s i h, ih]
  exact key _

lemma rrLoop_allZero (n : Nat) (s : RRState) (h : AllZero s) : rrLoop n s = s := by
  induction n with
  | zero => rfl
  | succ n ih => rw [rrLoop_succ, rrPass_allZero s h, ih]

/-- The Round-Robin invariant: the table keeps its length and its identity
fields; `ogBurst` is either still unset (process untouched, burst intact) or
holds the original burst; every written row satisfies the metric identities
and reports the original burst and identity fields of its process. -/
def RRInv (ps : List Process) (s : RRState) : Prop :=
  s.processes.length = ps.length ∧
  s.ogBurst.length = ps.length ∧
  (∀ i, i < ps.length →
    (s.processes.getD i default).processID = (ps.getD i default).processID ∧
    (s.processes.getD i default).arrivalTime = (ps.getD i default).arrivalTime ∧
    (s.processes.getD i default).priority = (ps.getD i default).priority) ∧
  (∀ i, (s.ogBurst.getD i 0 = 0 ∧
      (s.processes.getD i default).burstDuration = (ps.getD i default).burstDuration) ∨
    (s.ogBurst.getD i 0 = (ps.getD i default).burstDuration ∧ s.ogBurst.getD i 0 ≠ 0)) ∧
  (∀ i r, s.schedule.getD i none = some r →
    r.turnaround = r.waitingTime + r.burst ∧
    r.completion = r.arrivalTime + r.waitingTime + r.burst ∧
    r.burst = (ps.getD i default).burstDuration ∧
    r.processID = (ps.getD i default).processID ∧
    r.arrivalTime = (ps.getD i default).arrivalTime ∧
    r.priority = (ps.getD i default).priority)

lemma rrInv_init (ps : List Process) :
    RRInv ps ⟨ps, 0, List.replicate ps.length 0, List.replicate ps.length none, []⟩ := by
  refine ⟨rfl, by simp, ?_, ?_, ?_⟩
  · intro i _
    exact ⟨rfl, rfl, rfl⟩
  · intro i
    left
    constructor
    · rcases Nat.lt_or_ge i ps.length with hi | hi
      · rw [List.getD_eq_getElem _ _ (by simpa using hi)]
        simp
      · exact List.getD_eq_default _ _ (by simpa using hi)
    · rfl
  · intro i r hr
    rw [show (⟨ps, 0, List.replicate ps.length 0, List.replicate ps.length none, []⟩ :
      RRState).schedule = List.replicate ps.length none from rfl, getD_replicate] at hr
    cases hr

/-- One firing branch of `rrVisit` (work unit `d`, which is the quantum or
the whole remaining burst) preserves the Round-Robin invariant. -/
lemma rrInv_update (ps : List Process) (s : RRState) (i : Nat) (d : Int)
    (h : RRInv ps s) (hbne : (s.processes.getD i default).burstDuration ≠ 0)
    (gl : List TimeSlice) (st : Int) :
    RRInv ps
      { processes := s.processes.set i
          { s.processes.getD i default with
            burstDuration := (s.processes.getD i default).burstDuration - d }
        serviceTime := st
        ogBurst := s.ogBurst.set i (if s.ogBurst.getD i 0 = 0
          then (s.processes.getD i default).burstDuration else s.ogBurst.getD i 0)
        schedule := s.schedule.set i (some
          ⟨(s.processes.getD i default).processID, (s.processes.getD i default).priority,
           (if s.ogBurst.getD i 0 = 0 then (s.processes.getD i default).burstDuration
            else s.ogBurst.getD i 0),
           (s.processes.getD i default).arrivalTime,
           d + (s.serviceTime - (s.processes.getD i default).arrivalTime) -
             (if s.ogBurst.getD i 0 = 0 then (s.processes.getD i default).burstDuration
              else s.ogBurst.getD i 0),
           d + (s.serviceTime - (s.processes.getD i default).arrivalTime),
           d + (s.processes.getD i default).arrivalTime +
             (s.serviceTime - (s.processes.getD i default).arrivalTime)⟩)
        gantt := gl } := by
  obtain ⟨hlen, hoglen, hfields, hog, hrows⟩ := h
  have hi : i < ps.length := by
    by_contra hc
    have h1 : s.processes.length ≤ i := by omega
    rw [List.getD_eq_default _ _ h1] at hbne
    exact hbne rfl
  have hogv : (if s.ogBurst.getD i 0 = 0 then (s.processes.getD i default).burstDuration
      else s.ogBurst.getD i 0) = (ps.getD i default).burstDuration ∧
      (if s.ogBurst.getD i 0 = 0 then (s.processes.getD i default).burstDuration
      else s.ogBurst.getD i 0) ≠ 0 := by
    rcases hog i with ⟨h1, h2⟩ | ⟨h1, h2⟩
    · rw [if_pos h1, h2]
      exact ⟨rfl, by rw [← h2]; exact hbne⟩
    · rw [if_neg h2, h1]
      exact ⟨rfl, by rw [← h1]; exact h2⟩
  refine ⟨?_, ?_, ?_, ?_, ?_⟩
  · show (s.processes.set i _).length = ps.length
    rw [List.length_set]
    exact hlen
  · show (s.ogBurst.set i _).length = ps.length
    rw [List.length_set]
    exact hoglen
  · intro k hk
    show ((s.processes.set i _).getD k default).processID = _ ∧
      ((s.processes.set i _).getD k default).arrivalTime = _ ∧
      ((s.processes.set i _).getD k default).priority = _
    by_cases hik : i = k
    · subst hik
      have hilen : i < s.processes.length := by omega
      rw [getD_set_self _ _ hilen]
      exact ⟨(hfields i hk).1, (hfields i hk).2.1, (hfields i hk).2.2⟩
    · rw [getD_set_ne _ _ _ hik]
      exact hfields k hk
  · intro k
    by_cases hik : i = k
    · subst hik
      right
      have hioglen : i < s.ogBurst.length := by omega
      show (s.ogBurst.set i _).getD i 0 = _ ∧ (s.ogBurst.set i _).getD i 0 ≠ 0
      rw [getD_set_self _ _ hioglen]
      exact hogv
    · show ((s.ogBurst.set i _).getD k 0 = 0 ∧
        ((s.processes.set i _).getD k default).burstDuration = _) ∨
        ((s.ogBurst.set i _).getD k 0 = _ ∧ (s.ogBurst.set i _).getD k 0 ≠ 0)
      rw [getD_set_ne _ _ _ hik, getD_set_ne _ _ _ hik]
      exact hog k
  · intro k r hr
    dsimp only at hr
    rw [getD_set_cases] at hr
    split at hr
    · next hc =>
      obtain ⟨hik, hilen⟩ := hc
      subst hik
      cases hr
      exact ⟨by ring, by ring, hogv.1, (hfields i hi).1, (hfields i hi).2.1,
        (hfields i hi).2.2⟩
    · exact hrows k r hr

lemma rrVisit_inv (ps : List Process) (s : RRState) (i : Nat) (h : RRInv ps s) :
    RRInv ps (rrVisit s i) := by
  simp only [rrVisit]
  by_cases hb1 : (s.processes.getD i default).burstDuration ≥ QuantumTime
  · rw [if_pos hb1]
    exact rrInv_update ps s i QuantumTime h
      (by have h3 : QuantumTime = (3 : Int) := rfl; omega) _ _
  · rw [if_neg hb1]
    by_cases hb2 : (s.processes.getD i default).burstDuration < QuantumTime ∧
        (s.processes.getD i default).burstDuration > 0
    · rw [if_pos hb2]
      exact rrInv_update ps s i (s.processes.getD i default).burstDuration h
        (by omega) _ _
    · rw [if_neg hb2]
      exact h

lemma rrPass_inv (ps : List Process) (s : RRState) (h : RRInv ps s) :
    RRInv ps (rrPass s) := by
  unfold rrPass
  have key : ∀ (idxs : List Nat) (s : RRState), RRInv ps s →
      RRInv ps (List.foldl rrVisit s idxs) := by
    intro idxs
    induction idxs with
    | nil => intro s hs; exact hs
    | cons i rest ih =>
      intro s hs
      rw [List.foldl_cons]
      exact ih (rrVisit s i) (rrVisit_inv ps s i hs)
  exact key _ s h

lemma rrLoop_inv (ps : List Process) : ∀ (n : Nat) (s : RRState), RRInv ps s →
    RRInv ps (rrLoop n s) := by
  intro n
  induction n with
  | zero => intro s hs; exact hs
  | succ n ih =>
    intro s hs
    rw [rrLoop_succ]
    exact ih (rrPass s) (rrPass_inv ps s hs)

lemma rrSchedule_inv (ps : List Process) : RRInv ps (RRSchedule ps) :=
  rrLoop_inv ps 1000 _ (rrInv_init ps)

/-- The Gantt list is a gapless chain starting at `t`: each slice starts
where the previous one stopped. -/
def chainFrom : Int → List TimeSlice → Prop
  | _, [] => True
  | t, sl :: rest => sl.start = t ∧ chainFrom sl.stop rest

/-- The stop boundary of the last slice (or `t` for an empty list). -/
def endOf : Int → List TimeSlice → Int
  | t, [] => t
  | _, sl :: rest => endOf sl.stop rest

lemma chainFrom_append (sl : TimeSlice) : ∀ (l : List TimeSlice) (t : Int),
    chainFrom t (l ++ [sl]) ↔ (chainFrom t l ∧ sl.start = endOf t l) := by
  intro l
  induction l with
  | nil =>
    intro t
    simp [chainFrom, endOf]
  | cons x rest ih =>
    intro t
    simp only [List.cons_append, chainFrom, endOf, List.append_eq, ih, and_assoc]

lemma endOf_append (sl : TimeSlice) : ∀ (l : List TimeSlice) (t : Int),
    endOf t (l ++ [sl]) = sl.stop := by
  intro l
  induction l with
  | nil => intro t; rfl
  | cons x rest ih =>
    intro t
    simp only [List.cons_append, endOf, List.append_eq, ih]

/-- Chain invariant of the Round-Robin Gantt list: gapless from 0, its end
is the running `serviceTime`, and every slice is between 1 and 3 ticks
long. -/
def RRChain (s : RRState) : Prop :=
  chainFrom 0 s.gantt ∧ endOf 0 s.gantt = s.serviceTime ∧
  (∀ sl ∈ s.gantt, 0 < sl.stop - sl.start ∧ sl.stop - sl.start ≤ 3)

lemma rrVisit_chain (s : RRState) (i : Nat) (h : RRChain s) :
    RRChain (rrVisit s i) := by
  obtain ⟨h1, h2, h3⟩ := h
  simp only [rrVisit]
  by_cases hb1 : (s.processes.getD i default).burstDuration ≥ QuantumTime
  · rw [if_pos hb1]
    refine ⟨?_, ?_, ?_⟩
    · show chainFrom 0 (s.gantt ++ [_])
      rw [chainFrom_append]
      refine ⟨h1, ?_⟩
      rw [h2]
      show s.serviceTime - (s.processes.getD i default).arrivalTime +
        (s.processes.getD i default).arrivalTime = s.serviceTime
      ring
    · show endOf 0 (s.gantt ++ [_]) = _
      rw [endOf_append]
    · intro sl hsl
      rcases List.mem_append.mp hsl with hsl | hsl
      · exact h3 sl hsl
      · rcases List.mem_singleton.mp hsl with rfl
        constructor
        · show 0 < s.serviceTime + QuantumTime -
            (s.serviceTime - (s.processes.getD i default).arrivalTime +
              (s.processes.getD i default).arrivalTime)
          simp only [QuantumTime]
          omega
        · show s.serviceTime + QuantumTime -
            (s.serviceTime - (s.processes.getD i default).arrivalTime +
              (s.processes.getD i default).arrivalTime) ≤ 3
          simp only [QuantumTime]
          omega
  · rw [if_neg hb1]
    by_cases hb2 : (s.processes.getD i default).burstDuration < QuantumTime ∧
        (s.processes.getD i default).burstDuration > 0
    · rw [if_pos hb2]
      refine ⟨?_, ?_, ?_⟩
      · show chainFrom 0 (s.gantt ++ [_])
        rw [chainFrom_append]
        refine ⟨h1, ?_⟩
        rw [h2]
        show s.serviceTime - (s.processes.getD i default).arrivalTime +
          (s.processes.getD i default).arrivalTime = s.serviceTime
        ring
      · show endOf 0 (s.gantt ++ [_]) = _
        rw [endOf_append]
      · intro sl hsl
        rcases List.mem_append.mp hsl with hsl | hsl
        · exact h3 sl hsl
        · rcases List.mem_singleton.mp hsl with rfl
          have hq : QuantumTime = (3 : Int) := rfl
          constructor
          · show 0 < s.serviceTime + (s.processes.getD i default).burstDuration -
              (s.serviceTime - (s.processes.getD i default).arrivalTime +
                (s.processes.getD i default).arrivalTime)
            omega
          · show s.serviceTime + (s.processes.getD i default).burstDuration -
              (s.serviceTime - (s.processes.getD i default).arrivalTime +
                (s.processes.getD i default).arrivalTime) ≤ 3
            omega
    · rw [if_neg hb2]
      exact ⟨h1, h2, h3⟩

lemma rrPass_chain (s : RRState) (h : RRChain s) : RRChain (rrPass s) := by
  unfold rrPass
  have key : ∀ (idxs : List Nat) (s : RRState), RRChain s →
      RRChain (List.foldl rrVisit s idxs) := by
    intro idxs
    induction idxs with
    | nil => intro s hs; exact hs
    | cons i rest ih =>
      intro s hs
      rw [List.foldl_cons]
      exact ih (rrVisit s i) (rrVisit_chain s i hs)
  exact key _ s h

lemma rrLoop_chain : ∀ (n : Nat) (s : RRState), RRChain s →
    RRChain (rrLoop n s) := by
  intro n
  induction n with
  | zero => intro s hs; exact hs
  | succ n ih =>
    intro s hs
    rw [rrLoop_succ]
    exact ih (rrPass s) (rrPass_chain s hs)

lemma rrSchedule_chain (ps : List Process) : RRChain (RRSchedule ps) :=
  rrLoop_chain 1000 _ ⟨trivial, rfl, fun sl hsl => absurd hsl (List.not_mem_nil sl)⟩

/-! ## The claim-C4 selection rules -/

/-- Modelled from claim C4 as stated: the same two-branch scan, but reading
the claim's words "the best remaining burst recorded so far" literally — a
candidate that wins the priority branch records its *remaining* burst. -/
def c4ClaimStepFn (ps : List Process) (rb : List Int) (tick : Int)
    (best : Int × Int × Int) (i : Nat) : Int × Int × Int :=
  if 0 < rb.getD i 0 ∧ (ps.getD i default).arrivalTime ≤ tick then
    if (ps.getD i default).priority < best.2.2 then
      ((i : Int), rb.getD i 0, (ps.getD i default).priority)
    else if rb.getD i 0 < best.2.1 then
      ((i : Int), rb.getD i 0, (ps.getD i default).priority)
    else best
  else best

/-- The claim-C4 scan over a prefix of the table. -/
def c4ClaimScanAcc (ps : List Process) (rb : List Int) (tick : Int) (n : Nat) :
    Int × Int × Int :=
  (List.range n).foldl (c4ClaimStepFn ps rb tick) (-1, 100000, 100000)

/-- The index the claim-C4 rule would select. -/
def c4ClaimSelect (ps : List Process) (rb : List Int) (tick : Int) : Int :=
  (c4ClaimScanAcc ps rb tick ps.length).1

/-- Modelled from claim C4 as amended: a candidate replaces the best when
its priority is strictly lower (recording its *full* `BurstDuration` as the
best burst), otherwise when its remaining burst is strictly smaller than the
best burst recorded so far (recording that remaining burst). -/
def c4AmendedStepFn (ps : List Process) (rb : List Int) (tick : Int)
    (best : Int × Int × Int) (i : Nat) : Int × Int × Int :=
  if 0 < rb.getD i 0 ∧ (ps.getD i default).arrivalTime ≤ tick then
    if (ps.getD i default).priority < best.2.2 then
      ((i : Int), (ps.getD i default).burstDuration, (ps.getD i default).priority)
    else if rb.getD i 0 < best.2.1 then
      ((i : Int), rb.getD i 0, (ps.getD i default).priority)
    else best
  else best

/-- The amended-C4 scan over a prefix of the table. -/
def c4AmendedScanAcc (ps : List Process) (rb : List Int) (tick : Int) (n : Nat) :
    Int × Int × Int :=
  (List.range n).foldl (c4AmendedStepFn ps rb tick) (-1, 100000, 100000)

/-- The index the amended-C4 rule selects. -/
def c4AmendedSelect (ps : List Process) (rb : List Int) (tick : Int) : Int :=
  (c4AmendedScanAcc ps rb tick ps.length).1

lemma sjfpStepFn_eq_amended (ps : List Process) (rb : List Int) (tick : Int)
    (b : Int × Int × Int) (i : Nat) :
    sjfpStepFn ps rb tick b i = c4AmendedStepFn ps rb tick b i := by
  unfold sjfpStepFn c4AmendedStepFn
  by_cases h1 : 0 < rb.getD i 0 ∧ (ps.getD i default).arrivalTime ≤ tick
  · rw [if_pos h1, if_pos h1]
    by_cases h2 : (ps.getD i default).priority < b.2.2
    · rw [if_pos ⟨le_of_lt h2, h2⟩, if_pos h2]
    · rw [if_neg (fun hc => h2 hc.2), if_neg h2]
  · rw [if_neg h1, if_neg h1]

lemma c4AmendedScanAcc_succ (ps : List Process) (rb : List Int) (tick : Int) (n : Nat) :
    c4AmendedScanAcc ps rb tick (n + 1) =
      c4AmendedStepFn ps rb tick (c4AmendedScanAcc ps rb tick n) n := by
  unfold c4AmendedScanAcc
  rw [List.range_succ, List.foldl_append, List.foldl_cons, List.foldl_nil]

lemma sjfpScanAcc_eq_amended (ps : List Process) (rb : List Int) (tick : Int) :
    ∀ n, sjfpScanAcc ps rb tick n = c4AmendedScanAcc ps rb tick n := by
  intro n
  induction n with
  | zero => rfl
  | succ n ih =>
    rw [sjfpScanAcc_succ, c4AmendedScanAcc_succ, ih, sjfpStepFn_eq_amended]

lemma fcfsRowsAux_ident (l : List Process) : ∀ (service wait : Int)
    (rc : ScheduleRow × TimeSlice), rc ∈ fcfsRowsAux service wait l →
    rc.1.turnaround = rc.1.waitingTime + rc.1.burst ∧
    rc.1.completion = rc.1.arrivalTime + rc.1.waitingTime + rc.1.burst := by
  induction l with
  | nil =>
    intro service wait rc hrc
    exact absurd hrc (List.not_mem_nil rc)
  | cons p rest ih =>
    intro service wait rc hrc
    rw [show fcfsRowsAux service wait (p :: rest) = _ :: _ from rfl,
      List.mem_cons] at hrc
    rcases hrc with rfl | hrc
    · exact ⟨by ring, by ring⟩
    · exact ih _ _ rc hrc

lemma chainFrom_first (t : Int) (l : List TimeSlice) (h : chainFrom t l)
    (hne : l ≠ []) : (l.getD 0 default).start = t := by
  cases l with
  | nil => exact absurd rfl hne
  | cons x rest =>
    rw [List.getD_cons_zero]
    exact h.1

lemma chainFrom_consec (l : List TimeSlice) : ∀ (t : Int), chainFrom t l →
    ∀ i, i + 1 < l.length →
      (l.getD (i + 1) default).start = (l.getD i default).stop := by
  induction l with
  | nil =>
    intro t _ i hi
    cases hi
  | cons x rest ih =>
    intro t h i hi
    cases i with
    | zero =>
      rw [List.getD_cons_succ, List.getD_cons_zero]
      refine chainFrom_first x.stop rest h.2 ?_
      intro hc
      subst hc
      simp at hi
    | succ i =>
      rw [List.getD_cons_succ, List.getD_cons_succ]
      exact ih x.stop h.2 i (by simpa using hi)

/-! ## Claim theorems -/

/-- Claim C1: for every process table and each of the four schedulers, every
schedule row produced satisfies TurnaroundTime = WaitingTime +
OriginalBurstDuration and CompletionTime = ArrivalTime + WaitingTime +
OriginalBurstDuration, where the row's burst column is the input
(pre-decrement) BurstDuration of its process. -/
theorem C1_row_invariants :
    (∀ ps : List Process, ∀ r ∈ (FCFSSchedule ps).schedule,
      r.turnaround = r.waitingTime + r.burst ∧
      r.completion = r.arrivalTime + r.waitingTime + r.burst) ∧
    (∀ (ps : List Process) (fuel : Nat) (s : TickState),
      SJFSchedule ps fuel = some s → ∀ i r, s.schedule.getD i none = some r →
        r.turnaround = r.waitingTime + r.burst ∧
        r.completion = r.arrivalTime + r.waitingTime + r.burst ∧
        r.burst = (ps.getD i default).burstDuration) ∧
    (∀ (ps : List Process) (fuel : Nat) (s : TickState),
      SJFPrioritySchedule ps fuel = some s → ∀ i r, s.schedule.getD i none = some r →
        r.turnaround = r.waitingTime + r.burst ∧
        r.completion = r.arrivalTime + r.waitingTime + r.burst ∧
        r.burst = (ps.getD i default).burstDuration) ∧
    (∀ (ps : List Process) (i : Nat) (r : ScheduleRow),
      (RRSchedule ps).schedule.getD i none = some r →
        r.turnaround = r.waitingTime + r.burst ∧
        r.completion = r.arrivalTime + r.waitingTime + r.burst ∧
        r.burst = (ps.getD i default).burstDuration) := by
  refine ⟨?_, ?_, ?_, ?_⟩
  · intro ps r hr
    obtain ⟨h1, _, _⟩ := fcfs_foldl ps ⟨ps, 0, 0, [], []⟩
    unfold FCFSSchedule at hr
    rw [h1] at hr
    rw [show (⟨ps, 0, 0, [], []⟩ : FCFSState).schedule = [] from rfl,
      List.nil_append] at hr
    obtain ⟨rc, hrc, rfl⟩ := List.mem_map.mp hr
    exact fcfsRowsAux_ident ps _ _ rc hrc
  · intro ps fuel s hs i r hr
    exact tickLoop_rowInv sjfSelect ps fuel _ s rfl (rowInv_init ps) hs i r hr
  · intro ps fuel s hs i r hr
    exact tickLoop_rowInv sjfpSelect ps fuel _ s rfl (rowInv_init ps) hs i r hr
  · intro ps i r hr
    have h := (rrSchedule_inv ps).2.2.2.2 i r hr
    exact ⟨h.1, h.2.1, h.2.2.1⟩

/-- Witness for C1: the SJF run on the one-process table (1,0,2,0) finishes
and its only row satisfies the claimed identities. -/
theorem C1_row_invariants_witness :
    SJFSchedule [⟨1, 0, 2, 0⟩] 2 =
      some ⟨[⟨1, 0, 2, 0⟩], [0], 2, 2, 0, 1, [⟨1, 0, 2⟩],
        [some ⟨1, 0, 2, 0, 0, 2, 2⟩]⟩ ∧
    (⟨1, 0, 2, 0, 0, 2, 2⟩ : ScheduleRow).turnaround =
      (⟨1, 0, 2, 0, 0, 2, 2⟩ : ScheduleRow).waitingTime +
        (⟨1, 0, 2, 0, 0, 2, 2⟩ : ScheduleRow).burst :=
  ⟨by decide,
   (C1_row_invariants.2.1 [⟨1, 0, 2, 0⟩] 2
     ⟨[⟨1, 0, 2, 0⟩], [0], 2, 2, 0, 1, [⟨1, 0, 2⟩], [some ⟨1, 0, 2, 0, 0, 2, 2⟩]⟩
     (by decide) 0 ⟨1, 0, 2, 0, 0, 2, 2⟩ (by decide)).1⟩

/-- Claim C2 counterexample: with a single process of burst 100001 (at or
above the scan's 100000 sentinel), the process is eligible at tick 0 of the
actual run, yet the SJF scan selects nothing (`-1`) and the tick idles, so
no eligible minimum-burst process executes. -/
theorem C2_counterexample :
    Elig [⟨1, 0, 100001, 0⟩] [100001] 0 0 ∧
    (initTickState [⟨1, 0, 100001, 0⟩]).remainingBurst = [100001] ∧
    (initTickState [⟨1, 0, 100001, 0⟩]).tick = 0 ∧
    sjfSelect [⟨1, 0, 100001, 0⟩] [100001] 0 = -1 := by
  decide

/-- Claim C2 (amended): provided every remaining burst is at most the scan's
sentinel 100000, at every tick with an eligible process the SJF scan selects
an eligible process of minimum remaining burst, the last such in table
order; and the sentinel bound is maintained throughout every run whose input
bursts are at most 100000. -/
theorem C2_amended_min_burst :
    (∀ (ps : List Process) (rb : List Int) (tick : Int),
      (∀ i, i < rb.length → rb.getD i 0 ≤ 100000) →
      (∃ i, i < ps.length ∧ Elig ps rb tick i) →
      ∃ j, j < ps.length ∧ Elig ps rb tick j ∧ sjfSelect ps rb tick = (j : Int) ∧
        (∀ k, k < ps.length → Elig ps rb tick k → rb.getD j 0 ≤ rb.getD k 0) ∧
        (∀ k, k < ps.length → Elig ps rb tick k → rb.getD k 0 = rb.getD j 0 → k ≤ j)) ∧
    (∀ (ps : List Process) (fuel : Nat) (s : TickState),
      (∀ p ∈ ps, p.burstDuration ≤ 100000) → SJFSchedule ps fuel = some s →
      ∀ i, i < s.remainingBurst.length → s.remainingBurst.getD i 0 ≤ 100000) := by
  constructor
  · intro ps rb tick hbound helig
    rcases sjfScanAcc_char ps rb tick hbound ps.length with ⟨hnone, _⟩ |
      ⟨j, hj, hej, hacc, hmin, hlast⟩
    · obtain ⟨i, hi, hei⟩ := helig
      exact absurd hei (hnone i hi)
    · refine ⟨j, hj, hej, ?_, hmin, hlast⟩
      unfold sjfSelect
      rw [hacc]
  · intro ps fuel s hb hs i hi
    refine tickLoop_rbBound sjfSelect fuel (initTickState ps) s ?_ hs i hi
    intro k hk
    have hk' : k < (ps.map fun p => p.burstDuration).length := hk
    show (ps.map fun p => p.burstDuration).getD k 0 ≤ 100000
    rw [List.getD_eq_getElem _ _ hk']
    simp only [List.getElem_map]
    exact hb _ (List.getElem_mem _)

/-- Witness for C2 (amended): on the table (1,0,5,0),(2,0,3,0) at tick 0,
some process is eligible and the scan selects the (unique) minimum. -/
theorem C2_amended_min_burst_witness :
    ∃ j, j < ([⟨1, 0, 5, 0⟩, ⟨2, 0, 3, 0⟩] : List Process).length ∧
      Elig [⟨1, 0, 5, 0⟩, ⟨2, 0, 3, 0⟩] [5, 3] 0 j ∧
      sjfSelect [⟨1, 0, 5, 0⟩, ⟨2, 0, 3, 0⟩] [5, 3] 0 = (j : Int) ∧
      (∀ k, k < ([⟨1, 0, 5, 0⟩, ⟨2, 0, 3, 0⟩] : List Process).length →
        Elig [⟨1, 0, 5, 0⟩, ⟨2, 0, 3, 0⟩] [5, 3] 0 k →
        ([5, 3] : List Int).getD j 0 ≤ ([5, 3] : List Int).getD k 0) ∧
      (∀ k, k < ([⟨1, 0, 5, 0⟩, ⟨2, 0, 3, 0⟩] : List Process).length →
        Elig [⟨1, 0, 5, 0⟩, ⟨2, 0, 3, 0⟩] [5, 3] 0 k →
        ([5, 3] : List Int).getD k 0 = ([5, 3] : List Int).getD j 0 → k ≤ j) :=
  C2_amended_min_burst.1 [⟨1, 0, 5, 0⟩, ⟨2, 0, 3, 0⟩] [5, 3] 0
    (by decide) ⟨0, by decide, by decide⟩

/-- Claim C3 counterexample: at tick 0 of SJFPrioritySchedule on the table
(1,0,20,3),(2,0,1,5), both processes are eligible and have different
priorities (3 versus 5), yet the scan selects index 1 — the process with the
strictly *higher* priority value — because the later candidate's smaller
remaining burst overrides the priority comparison. -/
theorem C3_counterexample :
    Elig [⟨1, 0, 20, 3⟩, ⟨2, 0, 1, 5⟩] [20, 1] 0 0 ∧
    Elig [⟨1, 0, 20, 3⟩, ⟨2, 0, 1, 5⟩] [20, 1] 0 1 ∧
    (([⟨1, 0, 20, 3⟩, ⟨2, 0, 1, 5⟩] : List Process).getD 0 default).priority = 3 ∧
    (([⟨1, 0, 20, 3⟩, ⟨2, 0, 1, 5⟩] : List Process).getD 1 default).priority = 5 ∧
    (initTickState [⟨1, 0, 20, 3⟩, ⟨2, 0, 1, 5⟩]).remainingBurst = [20, 1] ∧
    (initTickState [⟨1, 0, 20, 3⟩, ⟨2, 0, 1, 5⟩]).tick = 0 ∧
    sjfpSelect [⟨1, 0, 20, 3⟩, ⟨2, 0, 1, 5⟩] [20, 1] 0 = 1 := by
  decide

/-- Claim C3 (amended): in SJFPrioritySchedule, when exactly two processes
are eligible at a tick, their priorities differ, the strictly-lower-priority
one occurs later in table order and its priority is below the sentinel
100000, then it is the one selected, regardless of remaining bursts.  (When
the lower-priority process comes first in table order, a later eligible
process whose remaining burst is below the recorded best burst is selected
instead, as the counterexample shows.) -/
theorem C3_amended_priority_selection
    (ps : List Process) (rb : List Int) (tick : Int) (i j : Nat)
    (hij : i < j) (hjlen : j < ps.length)
    (hei : Elig ps rb tick i) (hej : Elig ps rb tick j)
    (honly : ∀ k, Elig ps rb tick k → k = i ∨ k = j)
    (hpj : (ps.getD j default).priority < (ps.getD i default).priority)
    (hpj2 : (ps.getD j default).priority < 100000) :
    sjfpSelect ps rb tick = (j : Int) :=
  sjfpSelect_two_elig ps rb tick i j hij hjlen hei hej honly hpj hpj2

/-- Witness for C3 (amended): on (1,0,5,9),(2,0,9,4) at tick 0 the later,
lower-priority process (index 1) is selected. -/
theorem C3_amended_priority_selection_witness :
    sjfpSelect [⟨1, 0, 5, 9⟩, ⟨2, 0, 9, 4⟩] [5, 9] 0 = 1 :=
  C3_amended_priority_selection [⟨1, 0, 5, 9⟩, ⟨2, 0, 9, 4⟩] [5, 9] 0 0 1
    (by decide) (by decide) (by decide) (by decide)
    (by
      intro k hk
      match k with
      | 0 => exact Or.inl rfl
      | 1 => exact Or.inr rfl
      | Nat.succ (Nat.succ k) =>
        have h0 : ([5, 9] : List Int).getD (Nat.succ (Nat.succ k)) 0 = 0 := rfl
        have h1 := hk.1
        omega)
    (by decide) (by decide)

/-- Claim C4 counterexample: the state with remaining bursts [2,5] at tick 8
is reachable in SJFPrioritySchedule on (1,0,10,1),(2,8,5,1) (process 1 ran
ticks 0-7), and there the code's scan selects index 1 while the claim's rule
— which compares against the best *remaining* burst recorded so far —
selects index 0: the code records process 0's full burst 10 in the priority
branch, so process 1's remaining burst 5 wrongly wins the burst branch. -/
theorem C4_counterexample :
    SJFPrioritySchedule [⟨1, 0, 10, 1⟩, ⟨2, 8, 5, 1⟩] 8 =
      some ⟨[⟨1, 0, 10, 1⟩, ⟨2, 8, 5, 1⟩], [2, 5], 8, 15, 0, 0, [], [none, none]⟩ ∧
    sjfpSelect [⟨1, 0, 10, 1⟩, ⟨2, 8, 5, 1⟩] [2, 5] 8 = 1 ∧
    c4ClaimSelect [⟨1, 0, 10, 1⟩, ⟨2, 8, 5, 1⟩] [2, 5] 8 = 0 := by
  decide

/-- Claim C4 (amended): the per-tick scan of SJFPrioritySchedule follows
exactly the two-branch rule in which the priority branch (strictly lower
priority than the best recorded priority) records the candidate's *full*
BurstDuration as the best burst, and otherwise a candidate replaces the best
when its remaining burst is strictly below the best burst recorded so far,
regardless of its priority. -/
theorem C4_amended_scan_rule :
    ∀ (ps : List Process) (rb : List Int) (tick : Int),
      sjfpSelect ps rb tick = c4AmendedSelect ps rb tick := by
  intro ps rb tick
  unfold sjfpSelect c4AmendedSelect
  rw [sjfpScanAcc_eq_amended]

lemma fcfsSchedule_eq (ps : List Process) :
    (FCFSSchedule ps).schedule = (fcfsRowsAux 0 0 ps).map Prod.fst ∧
    (FCFSSchedule ps).gantt = (fcfsRowsAux 0 0 ps).map Prod.snd := by
  obtain ⟨h1, h2, _⟩ := fcfs_foldl ps ⟨ps, 0, 0, [], []⟩
  constructor
  · rw [show FCFSSchedule ps = ps.foldl fcfsStep ⟨ps, 0, 0, [], []⟩ from rfl, h1]
    rfl
  · rw [show FCFSSchedule ps = ps.foldl fcfsStep ⟨ps, 0, 0, [], []⟩ from rfl, h2]
    rfl

/-- Claim C5: FCFS executes processes in input order with
waitingTime = serviceTimeSoFar - ArrivalTime when ArrivalTime > 0 (carried
over unchanged when ArrivalTime = 0), Start = waitingTime + ArrivalTime,
Completion = Start + BurstDuration, the Gantt stop accumulating the bursts;
in particular the three-process example yields waits [0,3,4] and completions
[5,8,10]. -/
theorem C5_fcfs_rule :
    (∀ ps : List Process,
      (FCFSSchedule ps).schedule.map (fun r => r.waitingTime) = fcfsSpecWaits ps ∧
      (FCFSSchedule ps).schedule.length = ps.length ∧
      (FCFSSchedule ps).gantt.length = ps.length ∧
      ∀ i, i < ps.length →
        ((FCFSSchedule ps).schedule.getD i default).processID =
          (ps.getD i default).processID ∧
        ((FCFSSchedule ps).gantt.getD i default).start =
          ((FCFSSchedule ps).schedule.getD i default).waitingTime +
            ((FCFSSchedule ps).schedule.getD i default).arrivalTime ∧
        ((FCFSSchedule ps).schedule.getD i default).completion =
          ((FCFSSchedule ps).gantt.getD i default).start +
            ((FCFSSchedule ps).schedule.getD i default).burst ∧
        ((FCFSSchedule ps).gantt.getD i default).stop = sumBurst (ps.take (i + 1))) ∧
    ((FCFSSchedule [⟨1, 0, 5, 0⟩, ⟨2, 2, 3, 0⟩, ⟨3, 4, 2, 0⟩]).schedule.map
        (fun r => r.waitingTime) = [0, 3, 4] ∧
      (FCFSSchedule [⟨1, 0, 5, 0⟩, ⟨2, 2, 3, 0⟩, ⟨3, 4, 2, 0⟩]).schedule.map
        (fun r => r.completion) = [5, 8, 10]) := by
  constructor
  · intro ps
    obtain ⟨hs, hg⟩ := fcfsSchedule_eq ps
    refine ⟨?_, ?_, ?_, ?_⟩
    · rw [hs, List.map_map]
      show (fcfsRowsAux 0 0 ps).map (fun rc => rc.1.waitingTime) = fcfsSpecWaits ps
      exact fcfsRowsAux_waits ps 0 0
    · rw [hs, List.length_map, fcfsRowsAux_length]
    · rw [hg, List.length_map, fcfsRowsAux_length]
    · intro i hi
      obtain ⟨g1, g2, g3, g4⟩ := fcfsRowsAux_fields ps 0 0 i hi
      have e1 : (FCFSSchedule ps).schedule.getD i default =
          ((fcfsRowsAux 0 0 ps).getD i default).1 := by
        rw [hs, show (default : ScheduleRow) = (default : ScheduleRow × TimeSlice).1
          from rfl, List.getD_map]
      have e2 : (FCFSSchedule ps).gantt.getD i default =
          ((fcfsRowsAux 0 0 ps).getD i default).2 := by
        rw [hg, show (default : TimeSlice) = (default : ScheduleRow × TimeSlice).2
          from rfl, List.getD_map]
      rw [e1, e2]
      refine ⟨g1, g2, g3, ?_⟩
      rw [g4]
      ring
  · exact ⟨by decide, by decide⟩

/-- Witness for C5: its universal part applied to the three-process example
at index 1 — the second process's completion is its start plus its burst. -/
theorem C5_fcfs_rule_witness :
    ((FCFSSchedule [⟨1, 0, 5, 0⟩, ⟨2, 2, 3, 0⟩, ⟨3, 4, 2, 0⟩]).schedule.getD 1
        default).completion =
      ((FCFSSchedule [⟨1, 0, 5, 0⟩, ⟨2, 2, 3, 0⟩, ⟨3, 4, 2, 0⟩]).gantt.getD 1
          default).start +
        ((FCFSSchedule [⟨1, 0, 5, 0⟩, ⟨2, 2, 3, 0⟩, ⟨3, 4, 2, 0⟩]).schedule.getD 1
          default).burst :=
  ((C5_fcfs_rule.1 [⟨1, 0, 5, 0⟩, ⟨2, 2, 3, 0⟩, ⟨3, 4, 2, 0⟩]).2.2.2 1
    (by decide)).2.2.1

/-- Claim C6 is refuted by the code (code bug): on the well-formed one-row
table (ID 1, arrival 0, burst 1), both SJFSchedule and SJFPrioritySchedule
evaluate `processes[lastGanttIndex]` with `lastGanttIndex = -1` on the very
first tick (because `tick == totalBurstTime-1` there and that branch lacks
the `!= -1` guard), which is an out-of-range slice index — a runtime panic
in Go, `none` in this embedding — for any amount of fuel. -/
theorem C6_fault :
    SJFSchedule [⟨1, 0, 1, 0⟩] 1 = none ∧
    SJFPrioritySchedule [⟨1, 0, 1, 0⟩] 1 = none ∧
    (∀ fuel : Nat, SJFSchedule [⟨1, 0, 1, 0⟩] (fuel + 1) = none) ∧
    (∀ fuel : Nat, SJFPrioritySchedule [⟨1, 0, 1, 0⟩] (fuel + 1) = none) := by
  refine ⟨by decide, by decide, ?_, ?_⟩
  · intro fuel
    show tickLoop sjfSelect (fuel + 1) (initTickState [⟨1, 0, 1, 0⟩]) = none
    rw [tickLoop_succ, if_pos (by decide),
      show tickStep sjfSelect (initTickState [⟨1, 0, 1, 0⟩]) = none from by decide]
  · intro fuel
    show tickLoop sjfpSelect (fuel + 1) (initTickState [⟨1, 0, 1, 0⟩]) = none
    rw [tickLoop_succ, if_pos (by decide),
      show tickStep sjfpSelect (initTickState [⟨1, 0, 1, 0⟩]) = none from by decide]

/-- Claim C7 counterexample: on the table (1, arrival 5, burst 1) no process
is eligible at tick 0, so per the claim the idle tick should extend
totalBurstTime by one — but the run faults instead: tick 0 equals
totalBurstTime - 1, and the unguarded Gantt-closing branch reads
processes[-1].  No state with an extended horizon ever exists. -/
theorem C7_counterexample :
    sjfSelect [⟨1, 5, 1, 0⟩] [1] 0 = -1 ∧
    (initTickState [⟨1, 5, 1, 0⟩]).remainingBurst = [1] ∧
    (initTickState [⟨1, 5, 1, 0⟩]).tick = 0 ∧
    tickStep sjfSelect (initTickState [⟨1, 5, 1, 0⟩]) = none ∧
    SJFSchedule [⟨1, 5, 1, 0⟩] 1 = none := by
  decide

/-- Claim C7 (amended): in SJF and SJF-Priority, whenever an idle tick
completes without faulting, no remaining burst changes and the horizon grows
by exactly one; and provided the table's total burst is at least 2 (ruling
out the final-tick Gantt fault of C6/the counterexample), when every arrival
is at least `a` the run factors through the state after `a` idle ticks,
whose horizon is the total burst plus `a`, with bursts untouched and an
empty Gantt list, and every slice any continuation ever emits starts at or
after `a`. -/
theorem C7_amended_idle :
    (∀ (s s1 : TickState), (∀ k, ¬ Elig s.processes s.remainingBurst s.tick k) →
      tickStep sjfSelect s = some s1 →
      s1.remainingBurst = s.remainingBurst ∧
      s1.totalBurstTime = s.totalBurstTime + 1 ∧ s1.tick = s.tick + 1) ∧
    (∀ (s s1 : TickState), (∀ k, ¬ Elig s.processes s.remainingBurst s.tick k) →
      tickStep sjfpSelect s = some s1 →
      s1.remainingBurst = s.remainingBurst ∧
      s1.totalBurstTime = s.totalBurstTime + 1 ∧ s1.tick = s.tick + 1) ∧
    (∀ (ps : List Process) (a : Nat), (∀ p ∈ ps, (a : Int) ≤ p.arrivalTime) →
      2 ≤ sumBurst ps →
      (∀ f, SJFSchedule ps (a + f) = tickLoop sjfSelect f (idleState ps a)) ∧
      (idleState ps a).tick = (a : Int) ∧
      (idleState ps a).totalBurstTime = sumBurst ps + (a : Int) ∧
      (idleState ps a).remainingBurst = (initTickState ps).remainingBurst ∧
      (idleState ps a).gantt = [] ∧
      (∀ f s1, tickLoop sjfSelect f (idleState ps a) = some s1 →
        ∀ sl ∈ s1.gantt, (a : Int) ≤ sl.start)) ∧
    (∀ (ps : List Process) (a : Nat), (∀ p ∈ ps, (a : Int) ≤ p.arrivalTime) →
      2 ≤ sumBurst ps →
      (∀ f, SJFPrioritySchedule ps (a + f) = tickLoop sjfpSelect f (idleState ps a)) ∧
      (∀ f s1, tickLoop sjfpSelect f (idleState ps a) = some s1 →
        ∀ sl ∈ s1.gantt, (a : Int) ≤ sl.start)) := by
  have hJ0 : ∀ (ps : List Process) (a : Nat), GanttLow (a : Int) (idleState ps a) := by
    intro ps a
    exact ⟨le_refl _, fun sl hsl => absurd hsl (List.not_mem_nil sl), Or.inl rfl⟩
  refine ⟨?_, ?_, ?_, ?_⟩
  · intro s s1 hno h
    exact tickStep_idle sjfSelect s s1 (sjfSelect_of_no_elig _ _ _ hno) h
  · intro s s1 hno h
    exact tickStep_idle sjfpSelect s s1 (sjfpSelect_of_no_elig _ _ _ hno) h
  · intro ps a harr hT
    refine ⟨?_, rfl, rfl, rfl, rfl, ?_⟩
    · intro f
      exact tickLoop_idle_phase sjfSelect
        (fun qs rb t hq => sjfSelect_of_no_elig qs rb t hq) ps a harr hT a
        le_rfl f
    · intro f s1 h sl hsl
      exact (tickLoop_ganttLow sjfSelect (a : Int) f _ s1 (hJ0 ps a) h).2.1 sl hsl
  · intro ps a harr hT
    refine ⟨?_, ?_⟩
    · intro f
      exact tickLoop_idle_phase sjfpSelect
        (fun qs rb t hq => sjfpSelect_of_no_elig qs rb t hq) ps a harr hT a
        le_rfl f
    · intro f s1 h sl hsl
      exact (tickLoop_ganttLow sjfpSelect (a : Int) f _ s1 (hJ0 ps a) h).2.1 sl hsl

/-- Witness for C7 (amended): on the table (1, arrival 2, burst 3) the run
reaches, after its two idle ticks, exactly the idle state with horizon
3 + 2 = 5, untouched burst and empty Gantt list. -/
theorem C7_amended_idle_witness :
    SJFSchedule [⟨1, 2, 3, 0⟩] 2 = some (idleState [⟨1, 2, 3, 0⟩] 2) ∧
    (idleState [⟨1, 2, 3, 0⟩] 2).totalBurstTime = 5 ∧
    (idleState [⟨1, 2, 3, 0⟩] 2).remainingBurst = [3] ∧
    (idleState [⟨1, 2, 3, 0⟩] 2).gantt = [] := by
  have h := (C7_amended_idle.2.2.1 [⟨1, 2, 3, 0⟩] 2 (by decide) (by decide)).1 0
  exact ⟨h, by decide, by decide, by decide⟩

/-- Claim C8: RRSchedule on the single process (1, arrival 0, burst 7) with
the fixed quantum 3 emits exactly the three Gantt slices stopping at 3, 6, 7
(increments 3, 3, 1) and reports a final waiting time of 0. -/
theorem C8_rr_single_burst7 :
    (RRSchedule [⟨1, 0, 7, 0⟩]).gantt = [⟨1, 0, 3⟩, ⟨1, 3, 6⟩, ⟨1, 6, 7⟩] ∧
    (RRSchedule [⟨1, 0, 7, 0⟩]).schedule = [some ⟨1, 0, 7, 0, 0, 7, 7⟩] := by
  have hsplit : RRSchedule [⟨1, 0, 7, 0⟩] =
      rrLoop 997 (rrLoop 3 ⟨[⟨1, 0, 7, 0⟩], 0, [0], [none], []⟩) := by
    rw [show RRSchedule [⟨1, 0, 7, 0⟩] =
        rrLoop 1000 ⟨[⟨1, 0, 7, 0⟩], 0, [0], [none], []⟩ from rfl,
      show (1000 : Nat) = 997 + 3 from by norm_num, rrLoop_add]
  have h3 : rrLoop 3 ⟨[⟨1, 0, 7, 0⟩], 0, [0], [none], []⟩ =
      ⟨[⟨1, 0, 0, 0⟩], 7, [7], [some ⟨1, 0, 7, 0, 0, 7, 7⟩],
        [⟨1, 0, 3⟩, ⟨1, 3, 6⟩, ⟨1, 6, 7⟩]⟩ := by decide
  have hz : AllZero (⟨[⟨1, 0, 0, 0⟩], 7, [7], [some ⟨1, 0, 7, 0, 0, 7, 7⟩],
      [⟨1, 0, 3⟩, ⟨1, 3, 6⟩, ⟨1, 6, 7⟩]⟩ : RRState) := by
    intro p hp
    rcases List.mem_singleton.mp hp with rfl
    rfl
  rw [hsplit, h3, rrLoop_allZero 997 _ hz]
  exact ⟨rfl, rfl⟩

/-- Claim C9: FCFS, SJF and SJF-Priority leave the input table unchanged;
Round-Robin keeps the table's length and every record's ProcessID,
ArrivalTime and Priority, mutating only BurstDuration. -/
theorem C9_frame :
    (∀ ps : List Process, (FCFSSchedule ps).processes = ps) ∧
    (∀ (ps : List Process) (fuel : Nat) (s : TickState),
      SJFSchedule ps fuel = some s → s.processes = ps) ∧
    (∀ (ps : List Process) (fuel : Nat) (s : TickState),
      SJFPrioritySchedule ps fuel = some s → s.processes = ps) ∧
    (∀ ps : List Process,
      (RRSchedule ps).processes.length = ps.length ∧
      ∀ i, i < ps.length →
        ((RRSchedule ps).processes.getD i default).processID =
          (ps.getD i default).processID ∧
        ((RRSchedule ps).processes.getD i default).arrivalTime =
          (ps.getD i default).arrivalTime ∧
        ((RRSchedule ps).processes.getD i default).priority =
          (ps.getD i default).priority) := by
  refine ⟨?_, ?_, ?_, ?_⟩
  · intro ps
    exact (fcfs_foldl ps ⟨ps, 0, 0, [], []⟩).2.2
  · intro ps fuel s hs
    exact tickLoop_processes sjfSelect fuel _ s hs
  · intro ps fuel s hs
    exact tickLoop_processes sjfpSelect fuel _ s hs
  · intro ps
    exact ⟨(rrSchedule_inv ps).1, fun i hi => (rrSchedule_inv ps).2.2.1 i hi⟩

/-- Witness for C9: the finished SJF run on (1,0,2,0) still carries the
unchanged input table. -/
theorem C9_frame_witness :
    (⟨[⟨1, 0, 2, 0⟩], [0], 2, 2, 0, 1, [⟨1, 0, 2⟩],
      [some ⟨1, 0, 2, 0, 0, 2, 2⟩]⟩ : TickState).processes = [⟨1, 0, 2, 0⟩] :=
  C9_frame.2.1 [⟨1, 0, 2, 0⟩] 2
    ⟨[⟨1, 0, 2, 0⟩], [0], 2, 2, 0, 1, [⟨1, 0, 2⟩], [some ⟨1, 0, 2, 0, 0, 2, 2⟩]⟩
    (by decide)

/-- Claim C10: for every non-empty table of positive bursts, the Round-Robin
Gantt sequence is contiguous — the first slice starts at 0 and each slice
starts where the previous stopped, regardless of arrival times — and each
slice is a full quantum (length 3) or a final partial quantum (the process's
remaining burst, which is then below 3); a visit with remaining burst at
least the quantum appends exactly the slice [serviceTime, serviceTime + 3],
and one with 0 < burst < quantum appends [serviceTime, serviceTime + burst]. -/
theorem C10_rr_gantt :
    (∀ ps : List Process, ps ≠ [] → (∀ p ∈ ps, 0 < p.burstDuration) →
      chainFrom 0 (RRSchedule ps).gantt ∧
      ((RRSchedule ps).gantt ≠ [] →
        ((RRSchedule ps).gantt.getD 0 default).start = 0) ∧
      (∀ i, i + 1 < (RRSchedule ps).gantt.length →
        ((RRSchedule ps).gantt.getD (i + 1) default).start =
          ((RRSchedule ps).gantt.getD i default).stop) ∧
      (∀ sl ∈ (RRSchedule ps).gantt,
        sl.stop - sl.start = 3 ∨
          (0 < sl.stop - sl.start ∧ sl.stop - sl.start < 3))) ∧
    (∀ (s : RRState) (i : Nat),
      (s.processes.getD i default).burstDuration ≥ QuantumTime →
      (rrVisit s i).gantt = s.gantt ++
        [⟨(s.processes.getD i default).processID, s.serviceTime,
          s.serviceTime + 3⟩]) ∧
    (∀ (s : RRState) (i : Nat),
      0 < (s.processes.getD i default).burstDuration →
      (s.processes.getD i default).burstDuration < QuantumTime →
      (rrVisit s i).gantt = s.gantt ++
        [⟨(s.processes.getD i default).processID, s.serviceTime,
          s.serviceTime + (s.processes.getD i default).burstDuration⟩]) := by
  refine ⟨?_, ?_, ?_⟩
  · intro ps _ _
    have h := rrSchedule_chain ps
    generalize hG : RRSchedule ps = G at h ⊢
    obtain ⟨hc, he, hlen⟩ := h
    refine ⟨hc, ?_, ?_, ?_⟩
    · intro hne
      exact chainFrom_first 0 _ hc hne
    · intro i hi
      exact chainFrom_consec _ 0 hc i hi
    · intro sl hsl
      have h := hlen sl hsl
      omega
  · intro s i h
    simp only [rrVisit]
    rw [if_pos h]
    dsimp only
    rw [show s.serviceTime - (s.processes.getD i default).arrivalTime +
      (s.processes.getD i default).arrivalTime = s.serviceTime from by ring]
    rfl
  · intro s i h1 h2
    simp only [rrVisit]
    rw [if_neg (not_le.mpr h2), if_pos ⟨h2, h1⟩]
    dsimp only
    rw [show s.serviceTime - (s.processes.getD i default).arrivalTime +
      (s.processes.getD i default).arrivalTime = s.serviceTime from by ring]

/-- Witness for C10: visiting the process (1,0,7,0) with a full remaining
quantum appends exactly the slice [0, 3). -/
theorem C10_rr_gantt_witness :
    (rrVisit ⟨[⟨1, 0, 7, 0⟩], 0, [0], [none], []⟩ 0).gantt = [⟨1, 0, 3⟩] := by
  have h := C10_rr_gantt.2.1 ⟨[⟨1, 0, 7, 0⟩], 0, [0], [none], []⟩ 0 (by decide)
  rw [h]
  rfl
